import Mathlib

/-! notify_to_discord: a verification development

A shallow embedding of `function.go` (package `p`): the Cloud Function
`NotifyToDiscord`, its uploader `postToDiscord` and `genFilename`.

The function drives four library components whose behaviour decides what the
program does, so they are embedded too, following the Go standard library:

* `encoding/json` : the byte scanner (`scanner.go`), the streaming decoder
  `Decoder.More` / `Decoder.Decode` (`stream.go`) and the part of `decode.go`
  that stores a JSON value into a `Log`;
* `mime/multipart` : `Writer.CreateFormFile`, `CreateFormField`,
  `FormDataContentType`, `Close`;
* `net/http` : `Client.Do` of the default client, which follows redirects
  (`client.go`);
* `fmt` : the `%d` and `%s` verbs used by the program.

The collaborators that live outside the process (Cloud Storage, the wall clock,
the random multipart boundary, the HTTP transport, `strconv.ParseFloat` and
`json.Marshal` on decoded payloads) are fields of a `World` record.
`log.Printf` only writes to the process log and is left out.
-/

namespace Notify

/-! ## Bytes -/

/-- Go `[]byte` / `string`: a sequence of bytes. -/
abbrev Bytes := List UInt8

/-- Go `utf8.EncodeRune` for a code point `r` (callers never pass a surrogate). -/
def encodeRune (r : Nat) : Bytes :=
  if r < 0x80 then [r.toUInt8]
  else if r < 0x800 then [(0xC0 + r / 64).toUInt8, (0x80 + r % 64).toUInt8]
  else if r < 0x10000 then
    [(0xE0 + r / 4096).toUInt8, (0x80 + r / 64 % 64).toUInt8, (0x80 + r % 64).toUInt8]
  else
    [(0xF0 + r / 262144).toUInt8, (0x80 + r / 4096 % 64).toUInt8,
     (0x80 + r / 64 % 64).toUInt8, (0x80 + r % 64).toUInt8]

/-- The UTF-8 bytes of a string literal of the program text. -/
def utf8 (s : String) : Bytes :=
  (s.toList.map (fun c => encodeRune c.toNat)).flatten

/-! ## encoding/json: scanner.go -/

/-- The opcodes returned by the scanner's step functions. -/
inductive Op where
  | scanContinue
  | scanBeginLiteral
  | scanBeginObject
  | scanObjectKey
  | scanObjectValue
  | scanEndObject
  | scanBeginArray
  | scanArrayValue
  | scanEndArray
  | scanSkipSpace
  | scanEnd
  | scanError
  deriving DecidableEq, Repr

/-- The entries of the scanner's `parseState` stack. -/
inductive ParseState where
  | parseObjectKey
  | parseObjectValue
  | parseArrayValue
  deriving DecidableEq, Repr

/-- The step functions of `scanner.go`, as the values the field `step` takes. -/
inductive StepFn where
  | stateBeginValueOrEmpty
  | stateBeginValue
  | stateBeginStringOrEmpty
  | stateBeginString
  | stateEndValue
  | stateEndTop
  | stateInString
  | stateInStringEsc
  | stateInStringEscU
  | stateInStringEscU1
  | stateInStringEscU12
  | stateInStringEscU123
  | stateNeg
  | state1
  | state0
  | stateDot
  | stateDot0
  | stateE
  | stateESign
  | stateE0
  | stateT
  | stateTr
  | stateTru
  | stateF
  | stateFa
  | stateFal
  | stateFals
  | stateN
  | stateNu
  | stateNul
  | stateError
  deriving DecidableEq, Repr

/-- A `*json.SyntaxError` raised by the scanner: the offending byte and the
context text of `scanner.error`. -/
structure SyntaxError where
  c : UInt8
  context : String
  deriving DecidableEq, Repr

/-- The struct `scanner` (the byte counter `bytes`, used only for error
offsets, is left out). The top of `parseState` is the head of the list. -/
structure scanner where
  step : StepFn
  endTop : Bool
  parseState : List ParseState
  err : Option SyntaxError
  deriving DecidableEq, Repr

def maxNestingDepth : Nat := 10000

/-- The scanner after `reset`. -/
def scanner.reset (s : scanner) : scanner :=
  { s with step := .stateBeginValue, parseState := [], err := none, endTop := false }

/-- A freshly reset scanner. -/
def scanner.init : scanner :=
  { step := .stateBeginValue, endTop := false, parseState := [], err := none }

/-- The method `scanner.error`. -/
def scanner.error (s : scanner) (c : UInt8) (context : String) : scanner × Op :=
  ({ s with step := .stateError, err := some ⟨c, context⟩ }, .scanError)

def scanner.pushParseState (s : scanner) (c : UInt8) (newParseState : ParseState)
    (successState : Op) : scanner × Op :=
  let s := { s with parseState := newParseState :: s.parseState }
  if s.parseState.length ≤ maxNestingDepth then (s, successState)
  else s.error c "exceeded max depth"

def scanner.popParseState (s : scanner) : scanner :=
  let ps := s.parseState.tail
  if ps.length = 0 then { s with parseState := ps, step := .stateEndTop, endTop := true }
  else { s with parseState := ps, step := .stateEndValue }

def isSpace (c : UInt8) : Bool :=
  c ≤ 0x20 && (c == 0x20 || c == 0x09 || c == 0x0D || c == 0x0A)

def isDigit19 (c : UInt8) : Bool := 0x31 ≤ c && c ≤ 0x39

def isDigit09 (c : UInt8) : Bool := 0x30 ≤ c && c ≤ 0x39

def isHex (c : UInt8) : Bool :=
  (0x30 ≤ c && c ≤ 0x39) || (0x61 ≤ c && c ≤ 0x66) || (0x41 ≤ c && c ≤ 0x46)

def stateEndTop (s : scanner) (c : UInt8) : scanner × Op :=
  if !isSpace c then ((s.error c "after top-level value").1, .scanEnd)
  else (s, .scanEnd)

def stateEndValue (s : scanner) (c : UInt8) : scanner × Op :=
  match s.parseState with
  | [] => stateEndTop { s with step := .stateEndTop, endTop := true } c
  | ps :: rest =>
    if isSpace c then ({ s with step := .stateEndValue }, .scanSkipSpace)
    else
      match ps with
      | .parseObjectKey =>
        if c == 0x3A then
          ({ s with parseState := .parseObjectValue :: rest, step := .stateBeginValue },
            .scanObjectKey)
        else s.error c "after object key"
      | .parseObjectValue =>
        if c == 0x2C then
          ({ s with parseState := .parseObjectKey :: rest, step := .stateBeginString },
            .scanObjectValue)
        else if c == 0x7D then (s.popParseState, .scanEndObject)
        else s.error c "after object key:value pair"
      | .parseArrayValue =>
        if c == 0x2C then ({ s with step := .stateBeginValue }, .scanArrayValue)
        else if c == 0x5D then (s.popParseState, .scanEndArray)
        else s.error c "after array element"

def stateBeginValue (s : scanner) (c : UInt8) : scanner × Op :=
  if isSpace c then (s, .scanSkipSpace)
  else if c == 0x7B then
    scanner.pushParseState { s with step := .stateBeginStringOrEmpty } c .parseObjectKey
      .scanBeginObject
  else if c == 0x5B then
    scanner.pushParseState { s with step := .stateBeginValueOrEmpty } c .parseArrayValue
      .scanBeginArray
  else if c == 0x22 then ({ s with step := .stateInString }, .scanBeginLiteral)
  else if c == 0x2D then ({ s with step := .stateNeg }, .scanBeginLiteral)
  else if c == 0x30 then ({ s with step := .state0 }, .scanBeginLiteral)
  else if c == 0x74 then ({ s with step := .stateT }, .scanBeginLiteral)
  else if c == 0x66 then ({ s with step := .stateF }, .scanBeginLiteral)
  else if c == 0x6E then ({ s with step := .stateN }, .scanBeginLiteral)
  else if isDigit19 c then ({ s with step := .state1 }, .scanBeginLiteral)
  else s.error c "looking for beginning of value"

def stateBeginValueOrEmpty (s : scanner) (c : UInt8) : scanner × Op :=
  if isSpace c then (s, .scanSkipSpace)
  else if c == 0x5D then stateEndValue s c
  else stateBeginValue s c

def stateBeginString (s : scanner) (c : UInt8) : scanner × Op :=
  if isSpace c then (s, .scanSkipSpace)
  else if c == 0x22 then ({ s with step := .stateInString }, .scanBeginLiteral)
  else s.error c "looking for beginning of object key string"

def stateBeginStringOrEmpty (s : scanner) (c : UInt8) : scanner × Op :=
  if isSpace c then (s, .scanSkipSpace)
  else if c == 0x7D then
    stateEndValue { s with parseState := .parseObjectValue :: s.parseState.tail } c
  else stateBeginString s c

def stateInString (s : scanner) (c : UInt8) : scanner × Op :=
  if c == 0x22 then ({ s with step := .stateEndValue }, .scanContinue)
  else if c == 0x5C then ({ s with step := .stateInStringEsc }, .scanContinue)
  else if c < 0x20 then s.error c "in string literal"
  else (s, .scanContinue)

def stateInStringEsc (s : scanner) (c : UInt8) : scanner × Op :=
  if c == 0x62 || c == 0x66 || c == 0x6E || c == 0x72 || c == 0x74 || c == 0x5C
      || c == 0x2F || c == 0x22 then
    ({ s with step := .stateInString }, .scanContinue)
  else if c == 0x75 then ({ s with step := .stateInStringEscU }, .scanContinue)
  else s.error c "in string escape code"

/-- The four states `stateInStringEscU`, `...U1`, `...U12`, `...U123`: a
hexadecimal digit moves to `next`. -/
def stateHex (next : StepFn) (s : scanner) (c : UInt8) : scanner × Op :=
  if isHex c then ({ s with step := next }, .scanContinue)
  else s.error c "in \\u hexadecimal character escape"

def state0 (s : scanner) (c : UInt8) : scanner × Op :=
  if c == 0x2E then ({ s with step := .stateDot }, .scanContinue)
  else if c == 0x65 || c == 0x45 then ({ s with step := .stateE }, .scanContinue)
  else stateEndValue s c

def state1 (s : scanner) (c : UInt8) : scanner × Op :=
  if isDigit09 c then ({ s with step := .state1 }, .scanContinue)
  else state0 s c

def stateNeg (s : scanner) (c : UInt8) : scanner × Op :=
  if c == 0x30 then ({ s with step := .state0 }, .scanContinue)
  else if isDigit19 c then ({ s with step := .state1 }, .scanContinue)
  else s.error c "in numeric literal"

def stateDot (s : scanner) (c : UInt8) : scanner × Op :=
  if isDigit09 c then ({ s with step := .stateDot0 }, .scanContinue)
  else s.error c "after decimal point in numeric literal"

def stateDot0 (s : scanner) (c : UInt8) : scanner × Op :=
  if isDigit09 c then (s, .scanContinue)
  else if c == 0x65 || c == 0x45 then ({ s with step := .stateE }, .scanContinue)
  else stateEndValue s c

def stateESign (s : scanner) (c : UInt8) : scanner × Op :=
  if isDigit09 c then ({ s with step := .stateE0 }, .scanContinue)
  else s.error c "in exponent of numeric literal"

def stateE (s : scanner) (c : UInt8) : scanner × Op :=
  if c == 0x2B || c == 0x2D then ({ s with step := .stateESign }, .scanContinue)
  else stateESign s c

def stateE0 (s : scanner) (c : UInt8) : scanner × Op :=
  if isDigit09 c then (s, .scanContinue)
  else stateEndValue s c

/-- The states inside the literals `true`, `false`, `null`: the byte `want`
moves on, to `next` or (for the last letter) to `stateEndValue`. -/
def stateLit (want : UInt8) (next : StepFn) (context : String) (s : scanner) (c : UInt8) :
    scanner × Op :=
  if c == want then ({ s with step := next }, .scanContinue)
  else s.error c context

def stateError (s : scanner) (_c : UInt8) : scanner × Op := (s, .scanError)

/-- The call `s.step(s, c)`: dispatch on the current step function. -/
def scanner.doStep (s : scanner) (c : UInt8) : scanner × Op :=
  match s.step with
  | .stateBeginValueOrEmpty => stateBeginValueOrEmpty s c
  | .stateBeginValue => stateBeginValue s c
  | .stateBeginStringOrEmpty => stateBeginStringOrEmpty s c
  | .stateBeginString => stateBeginString s c
  | .stateEndValue => stateEndValue s c
  | .stateEndTop => stateEndTop s c
  | .stateInString => stateInString s c
  | .stateInStringEsc => stateInStringEsc s c
  | .stateInStringEscU => stateHex .stateInStringEscU1 s c
  | .stateInStringEscU1 => stateHex .stateInStringEscU12 s c
  | .stateInStringEscU12 => stateHex .stateInStringEscU123 s c
  | .stateInStringEscU123 => stateHex .stateInString s c
  | .stateNeg => stateNeg s c
  | .state1 => state1 s c
  | .state0 => state0 s c
  | .stateDot => stateDot s c
  | .stateDot0 => stateDot0 s c
  | .stateE => stateE s c
  | .stateESign => stateESign s c
  | .stateE0 => stateE0 s c
  | .stateT => stateLit 0x72 .stateTr "in literal true (expecting \x27r\x27)" s c
  | .stateTr => stateLit 0x75 .stateTru "in literal true (expecting \x27u\x27)" s c
  | .stateTru => stateLit 0x65 .stateEndValue "in literal true (expecting \x27e\x27)" s c
  | .stateF => stateLit 0x61 .stateFa "in literal false (expecting \x27a\x27)" s c
  | .stateFa => stateLit 0x6C .stateFal "in literal false (expecting \x27l\x27)" s c
  | .stateFal => stateLit 0x73 .stateFals "in literal false (expecting \x27s\x27)" s c
  | .stateFals => stateLit 0x65 .stateEndValue "in literal false (expecting \x27e\x27)" s c
  | .stateN => stateLit 0x75 .stateNu "in literal null (expecting \x27u\x27)" s c
  | .stateNu => stateLit 0x6C .stateNul "in literal null (expecting \x27l\x27)" s c
  | .stateNul => stateLit 0x6C .stateEndValue "in literal null (expecting \x27l\x27)" s c
  | .stateError => stateError s c

/-! ## encoding/json: stream.go -/

/-- The errors `Decoder.Decode` can return. The texts of the library's messages
are not modelled, only which error it is. -/
inductive DecodeError where
  | syntaxErr (e : SyntaxError)
  | unexpectedEOF
  | eof
  | unmarshalType (value : String) (goType : String)
  | parseFloat (lit : Bytes)
  | phase
  deriving DecidableEq, Repr

/-- The struct `Decoder` on a reader that delivers its bytes without a read
error and then `io.EOF`: `buf` holds the bytes from `scanp` on, those already in
the buffer and those `refill` will still bring, and `err` is the sticky field
`dec.err`. Reading in chunks does not change what `More` and `Decode` return,
so the chunks are not modelled. The token state stays `tokenTopValue` because
the program never calls `Token`. -/
structure Decoder where
  buf : Bytes
  err : Option DecodeError
  deriving DecidableEq, Repr

/-- The call `json.NewDecoder(r)` for a reader that delivers `input`. -/
def NewDecoder (input : Bytes) : Decoder := { buf := input, err := none }

/-- The method `Decoder.peek`: skip white space, then report the next byte and
leave `scanp` on it; when the stream ends first (`refill` returns `io.EOF`)
the result is `none` and `scanp` stays where it was. -/
def Decoder.peek (dec : Decoder) : Decoder × Option UInt8 :=
  match dec.buf.dropWhile isSpace with
  | [] => (dec, none)
  | c :: cs => ({ dec with buf := c :: cs }, some c)

/-- The method `Decoder.More`. -/
def Decoder.More (dec : Decoder) : Decoder × Bool :=
  match dec.peek with
  | (dec, some c) => (dec, c != 0x5D && c != 0x7D)
  | (dec, none) => (dec, false)

def nonSpace (b : Bytes) : Bool := b.any (fun c => !isSpace c)

/-- The scanning loop of `Decoder.readValue` over the bytes still to come:
`n` counts the bytes scanned so far; the result is the length of the next value
or the error that `readValue` also stores in `dec.err`. `all` is the whole
unread buffer, looked at by `nonSpace` when the stream ends inside a value. -/
def readValueLoop (all : Bytes) : scanner → Bytes → Nat → Except DecodeError Nat
  | s, [], n =>
    if (s.doStep 0x20).2 = .scanEnd then .ok n
    else if nonSpace all then .error .unexpectedEOF
    else .error .eof
  | s, c :: cs, n =>
    match s.doStep c with
    | (_, .scanEnd) => .ok n
    | (s, .scanEndObject) =>
      match stateEndValue s 0x20 with
      | (_, .scanEnd) => .ok (n + 1)
      | (s, _) => readValueLoop all s cs (n + 1)
    | (s, .scanEndArray) =>
      match stateEndValue s 0x20 with
      | (_, .scanEnd) => .ok (n + 1)
      | (s, _) => readValueLoop all s cs (n + 1)
    | (s, .scanError) =>
      match s.err with
      | some e => .error (.syntaxErr e)
      | none => .error .phase
    | (s, _) => readValueLoop all s cs (n + 1)

/-- The method `Decoder.readValue`: the length of the next JSON value in the
buffer, after `dec.scan.reset()`. -/
def readValue (buf : Bytes) : Except DecodeError Nat :=
  readValueLoop buf scanner.init buf 0

/-! ## encoding/json: decode.go

`Decoder.Decode` hands the bytes of one scanned value to `decodeState.unmarshal`,
which walks them again and stores into the destination. Here the walk is split
in two: `parseValue` reads the bytes into a `Value` tree (object keys and
strings unquoted as `unquoteBytes` does), and `storeLog` stores the tree into a
`Log` with the type rules of `decodeState.object` and `literalStore`. -/

/-- A JSON value as `decodeState` reads it. A number keeps its literal text:
`strconv.ParseFloat` turns it into a `float64`, which is not modelled. -/
inductive Value where
  | null
  | bool (b : Bool)
  | number (lit : Bytes)
  | string (s : Bytes)
  | array (elems : List Value)
  | object (members : List (Bytes × Value))
  deriving Repr

/-- The content of a `map[string]interface{}`: keys are unique, in the order
of first insertion (`json.Marshal` sorts them, so the order carries nothing). -/
abbrev GoMap := List (Bytes × Value)

/-- The struct `Resource`. A nil map is `none`. -/
structure Resource where
  Labels : Option GoMap
  Type_ : Bytes
  deriving Repr

/-- The struct `Log`. A nil map is `none`. -/
structure Log where
  InsertId : Bytes
  LogName : Bytes
  ReceiveTimestamp : Bytes
  Resource : Resource
  TextPayload : Bytes
  JSONPayload : Option GoMap
  deriving Repr

/-- The zero value of `Log`, as declared by `var logData Log`. -/
def Log.zero : Log :=
  { InsertId := [], LogName := [], ReceiveTimestamp := [],
    Resource := { Labels := none, Type_ := [] }, TextPayload := [], JSONPayload := none }

def skipSpace (b : Bytes) : Bytes := b.dropWhile isSpace

def isCont (c : UInt8) : Bool := 0x80 ≤ c && c ≤ 0xBF

/-- The size Go's `utf8.DecodeRune` reports for the bytes at the head of `b`
when they start a well-formed encoding of more than one byte, and `0` when they
do not (`DecodeRune` then returns `RuneError` with width 1). -/
def decodeRuneSize : Bytes → Nat
  | c0 :: c1 :: rest =>
    if 0xC2 ≤ c0 && c0 ≤ 0xDF then (if isCont c1 then 2 else 0)
    else
      match rest with
      | [] => 0
      | c2 :: rest =>
        if c0 == 0xE0 then (if 0xA0 ≤ c1 && c1 ≤ 0xBF && isCont c2 then 3 else 0)
        else if (0xE1 ≤ c0 && c0 ≤ 0xEC) || c0 == 0xEE || c0 == 0xEF then
          (if isCont c1 && isCont c2 then 3 else 0)
        else if c0 == 0xED then (if 0x80 ≤ c1 && c1 ≤ 0x9F && isCont c2 then 3 else 0)
        else
          match rest with
          | [] => 0
          | c3 :: _ =>
            if c0 == 0xF0 then
              (if 0x90 ≤ c1 && c1 ≤ 0xBF && isCont c2 && isCont c3 then 4 else 0)
            else if 0xF1 ≤ c0 && c0 ≤ 0xF3 then
              (if isCont c1 && isCont c2 && isCont c3 then 4 else 0)
            else if c0 == 0xF4 then
              (if 0x80 ≤ c1 && c1 ≤ 0x8F && isCont c2 && isCont c3 then 4 else 0)
            else 0
  | _ => 0

/-- The value of a hexadecimal digit, as in `getu4`. -/
def hexVal (c : UInt8) : Option Nat :=
  if 0x30 ≤ c && c ≤ 0x39 then some (c.toNat - 0x30)
  else if 0x61 ≤ c && c ≤ 0x66 then some (c.toNat - 0x61 + 10)
  else if 0x41 ≤ c && c ≤ 0x46 then some (c.toNat - 0x41 + 10)
  else none

/-- The function `getu4`: the code unit of a leading `\uXXXX`, `none` for Go's -1. -/
def getu4 : Bytes → Option Nat
  | b0 :: b1 :: h0 :: h1 :: h2 :: h3 :: _ =>
    if b0 == 0x5C && b1 == 0x75 then
      match hexVal h0, hexVal h1, hexVal h2, hexVal h3 with
      | some a, some b, some c, some d => some (a * 4096 + b * 256 + c * 16 + d)
      | _, _, _, _ => none
    else none
  | _ => none

def replacementChar : Bytes := [0xEF, 0xBF, 0xBD]

/-- The main loop of `unquoteBytes` on the bytes between the two quotes.
`none` is `ok == false`. -/
def unquoteLoop : Nat → Bytes → Option Bytes
  | 0, _ => none
  | _ + 1, [] => some []
  | fuel + 1, c :: cs =>
    if c == 0x5C then
      match cs with
      | [] => none
      | e :: rest =>
        if e == 0x22 || e == 0x5C || e == 0x2F || e == 0x27 then
          (unquoteLoop fuel rest).map (e :: ·)
        else if e == 0x62 then (unquoteLoop fuel rest).map (0x08 :: ·)
        else if e == 0x66 then (unquoteLoop fuel rest).map (0x0C :: ·)
        else if e == 0x6E then (unquoteLoop fuel rest).map (0x0A :: ·)
        else if e == 0x72 then (unquoteLoop fuel rest).map (0x0D :: ·)
        else if e == 0x74 then (unquoteLoop fuel rest).map (0x09 :: ·)
        else if e == 0x75 then
          match getu4 (c :: cs) with
          | none => none
          | some rr =>
            let after := (c :: cs).drop 6
            if 0xD800 ≤ rr && rr < 0xE000 then
              match getu4 after with
              | some rr1 =>
                if rr < 0xDC00 && 0xDC00 ≤ rr1 && rr1 < 0xE000 then
                  (unquoteLoop fuel (after.drop 6)).map
                    (encodeRune ((rr - 0xD800) * 1024 + (rr1 - 0xDC00) + 0x10000) ++ ·)
                else (unquoteLoop fuel after).map (replacementChar ++ ·)
              | none => (unquoteLoop fuel after).map (replacementChar ++ ·)
            else (unquoteLoop fuel after).map (encodeRune rr ++ ·)
        else none
    else if c == 0x22 || c < 0x20 then none
    else if c < 0x80 then (unquoteLoop fuel cs).map (c :: ·)
    else
      match decodeRuneSize (c :: cs) with
      | 0 => (unquoteLoop fuel cs).map (replacementChar ++ ·)
      | n => (unquoteLoop fuel ((c :: cs).drop n)).map ((c :: cs).take n ++ ·)

/-- The function `unquoteBytes` applied to the text between the quotes of a
string literal. -/
def unquoteBytes (body : Bytes) : Option Bytes := unquoteLoop (body.length + 1) body

/-- Split the text after an opening quote at the closing quote: the text
between the quotes and what follows the closing quote. -/
def splitString : Bytes → Option (Bytes × Bytes)
  | [] => none
  | c :: cs =>
    if c == 0x22 then some ([], cs)
    else if c == 0x5C then
      match cs with
      | [] => none
      | e :: rest => (splitString rest).map (fun p => (c :: e :: p.1, p.2))
    else (splitString cs).map (fun p => (c :: p.1, p.2))

def isNumberByte (c : UInt8) : Bool :=
  isDigit09 c || c == 0x2D || c == 0x2B || c == 0x2E || c == 0x65 || c == 0x45

/-- Drop the literal `lit` from the head of `b`. -/
def expect (lit : Bytes) (b : Bytes) : Option Bytes :=
  if lit.isPrefixOf b then some (b.drop lit.length) else none

mutual

/-- Read one JSON value from the head of the bytes: the value and the bytes
after it. The first argument bounds the recursion; the length of the input
plus one is enough. -/
def parseValue : Nat → Bytes → Option (Value × Bytes)
  | 0, _ => none
  | fuel + 1, b =>
    match skipSpace b with
    | [] => none
    | c :: cs =>
      if c == 0x7B then
        match skipSpace cs with
        | [] => none
        | d :: ds => if d == 0x7D then some (.object [], ds) else parseMembers fuel (d :: ds) []
      else if c == 0x5B then
        match skipSpace cs with
        | [] => none
        | d :: ds => if d == 0x5D then some (.array [], ds) else parseElems fuel (d :: ds) []
      else if c == 0x22 then
        match splitString cs with
        | none => none
        | some (body, rest) => (unquoteBytes body).map (fun s => (.string s, rest))
      else if c == 0x74 then (expect (utf8 "true") (c :: cs)).map (fun r => (.bool true, r))
      else if c == 0x66 then (expect (utf8 "false") (c :: cs)).map (fun r => (.bool false, r))
      else if c == 0x6E then (expect (utf8 "null") (c :: cs)).map (fun r => (.null, r))
      else if c == 0x2D || isDigit09 c then
        some (.number ((c :: cs).takeWhile isNumberByte), (c :: cs).dropWhile isNumberByte)
      else none

/-- Read the members of an object, after the opening brace, up to and
including the closing brace. -/
def parseMembers : Nat → Bytes → List (Bytes × Value) → Option (Value × Bytes)
  | 0, _, _ => none
  | fuel + 1, b, acc =>
    match skipSpace b with
    | [] => none
    | q :: cs =>
      if q != 0x22 then none
      else
        match splitString cs with
        | none => none
        | some (body, rest) =>
          match unquoteBytes body, skipSpace rest with
          | some key, colon :: r2 =>
            if colon != 0x3A then none
            else
              match parseValue fuel r2 with
              | none => none
              | some (v, r3) =>
                match skipSpace r3 with
                | [] => none
                | d :: r4 =>
                  if d == 0x2C then parseMembers fuel r4 (acc ++ [(key, v)])
                  else if d == 0x7D then some (.object (acc ++ [(key, v)]), r4)
                  else none
          | _, _ => none

/-- Read the elements of an array, after the opening bracket, up to and
including the closing bracket. -/
def parseElems : Nat → Bytes → List Value → Option (Value × Bytes)
  | 0, _, _ => none
  | fuel + 1, b, acc =>
    match parseValue fuel b with
    | none => none
    | some (v, r) =>
      match skipSpace r with
      | [] => none
      | d :: r2 =>
        if d == 0x2C then parseElems fuel r2 (acc ++ [v])
        else if d == 0x5D then some (.array (acc ++ [v]), r2)
        else none

end

/-- The function `foldName` on an object key. Lower-case ASCII letters go to
upper case; the two runes outside ASCII whose fold orbit meets ASCII, U+017F
(bytes C5 BF) and U+212A (bytes E2 84 AA), go to `S` and `K`. Every other rune
outside ASCII folds to a rune outside ASCII and is kept as it is, which gives
the same answer when the result is compared with the folded name of a field,
all of whose bytes are ASCII. -/
def foldName : Nat → Bytes → Bytes
  | 0, _ => []
  | _ + 1, [] => []
  | fuel + 1, c :: cs =>
    if c < 0x80 then (if 0x61 ≤ c && c ≤ 0x7A then c - 0x20 else c) :: foldName fuel cs
    else if c == 0xC5 && cs.take 1 == [0xBF] then 0x53 :: foldName fuel (cs.drop 1)
    else if c == 0xE2 && cs.take 2 == [0x84, 0xAA] then 0x4B :: foldName fuel (cs.drop 2)
    else c :: foldName fuel cs

/-- The lookup of `decodeState.object`: the field with exactly this name,
else the first field with the same folded name. -/
def findField {F : Type} (fields : List (Bytes × F)) (key : Bytes) : Option F :=
  match fields.find? (fun f => f.1 == key) with
  | some f => some f.2
  | none =>
    (fields.find? (fun f =>
      foldName f.1.length f.1 == foldName key.length key)).map (fun f => f.2)

/-- The method `decodeState.saveError`: the first error is kept. -/
def saveError (saved : Option DecodeError) (e : Option DecodeError) : Option DecodeError :=
  match saved with
  | some s => some s
  | none => e

/-- The assignment `m[k] = v` on a map. -/
def mapSet : GoMap → Bytes → Value → GoMap
  | [], k, v => [(k, v)]
  | (k0, v0) :: m, k, v => if k0 == k then (k, v) :: m else (k0, v0) :: mapSet m k v

mutual

/-- The method `decodeState.valueInterface`: the Go value an `interface{}`
receives, and the error saved on the way. `parseFloatOK` tells whether
`strconv.ParseFloat` accepts a number literal; a literal it rejects is stored
as nil and the error is saved (`convertNumber`). -/
def valueInterface (parseFloatOK : Bytes → Bool) : Value → Value × Option DecodeError
  | .null => (.null, none)
  | .bool b => (.bool b, none)
  | .string s => (.string s, none)
  | .number lit =>
    if parseFloatOK lit then (.number lit, none) else (.null, some (.parseFloat lit))
  | .array elems =>
    let r := arrayInterface parseFloatOK elems
    (.array r.1, r.2)
  | .object members =>
    let r := objectInterface parseFloatOK members []
    (.object r.1, r.2)

/-- The method `decodeState.arrayInterface`. -/
def arrayInterface (parseFloatOK : Bytes → Bool) :
    List Value → List Value × Option DecodeError
  | [] => ([], none)
  | v :: vs =>
    let r := valueInterface parseFloatOK v
    let rs := arrayInterface parseFloatOK vs
    (r.1 :: rs.1, saveError r.2 rs.2)

/-- The method `decodeState.objectInterface`, also the loop of
`decodeState.object` on a `map[string]interface{}` that holds `m`. -/
def objectInterface (parseFloatOK : Bytes → Bool) :
    List (Bytes × Value) → GoMap → GoMap × Option DecodeError
  | [], m => (m, none)
  | (k, v) :: rest, m =>
    let r := valueInterface parseFloatOK v
    let rs := objectInterface parseFloatOK rest (mapSet m k r.1)
    (rs.1, saveError r.2 rs.2)

end

/-- The `Value` text of an `UnmarshalTypeError`. -/
def Value.kind : Value → String
  | .null => "null"
  | .bool _ => "bool"
  | .number _ => "number"
  | .string _ => "string"
  | .array _ => "array"
  | .object _ => "object"

/-- Store a JSON value into a field of type `string`. -/
def storeString (cur : Bytes) : Value → Bytes × Option DecodeError
  | .string s => (s, none)
  | .null => (cur, none)
  | v => (cur, some (.unmarshalType v.kind "string"))

/-- Store a JSON value into a field of type `map[string]interface{}`: an
object is added to the map the field holds (a nil map is made first), `null`
sets the field to nil, anything else is a type error. -/
def storeMap (parseFloatOK : Bytes → Bool) (cur : Option GoMap) :
    Value → Option GoMap × Option DecodeError
  | .object members =>
    let r := objectInterface parseFloatOK members (cur.getD [])
    (some r.1, r.2)
  | .null => (none, none)
  | v => (cur, some (.unmarshalType v.kind "map[string]interface \x7b\x7d"))

/-- The fields of `Resource` with their JSON names. -/
inductive ResourceField where
  | Labels
  | Type_
  deriving DecidableEq, Repr

def resourceFields : List (Bytes × ResourceField) :=
  [(utf8 "labels", .Labels), (utf8 "type", .Type_)]

/-- The loop of `decodeState.object` on a `Resource`. -/
def storeResourceMembers (parseFloatOK : Bytes → Bool) :
    List (Bytes × Value) → Resource → Resource × Option DecodeError
  | [], r => (r, none)
  | (k, v) :: rest, r =>
    match findField resourceFields k with
    | none => storeResourceMembers parseFloatOK rest r
    | some .Labels =>
      let x := storeMap parseFloatOK r.Labels v
      let rs := storeResourceMembers parseFloatOK rest { r with Labels := x.1 }
      (rs.1, saveError x.2 rs.2)
    | some .Type_ =>
      let x := storeString r.Type_ v
      let rs := storeResourceMembers parseFloatOK rest { r with Type_ := x.1 }
      (rs.1, saveError x.2 rs.2)

/-- Store a JSON value into a field of type `Resource`. -/
def storeResource (parseFloatOK : Bytes → Bool) (cur : Resource) :
    Value → Resource × Option DecodeError
  | .object members => storeResourceMembers parseFloatOK members cur
  | .null => (cur, none)
  | v => (cur, some (.unmarshalType v.kind "p.Resource"))

/-- The fields of `Log` with their JSON names. -/
inductive LogField where
  | InsertId
  | LogName
  | ReceiveTimestamp
  | Resource
  | TextPayload
  | JSONPayload
  deriving DecidableEq, Repr

def logFields : List (Bytes × LogField) :=
  [(utf8 "insertId", .InsertId), (utf8 "logName", .LogName),
   (utf8 "receiveTimestamp", .ReceiveTimestamp), (utf8 "resource", .Resource),
   (utf8 "textPayload", .TextPayload), (utf8 "jsonPayload", .JSONPayload)]

/-- The loop of `decodeState.object` on a `Log`: each member whose key names
a field is stored into it, a member with an unknown key is skipped. -/
def storeLogMembers (parseFloatOK : Bytes → Bool) :
    List (Bytes × Value) → Log → Log × Option DecodeError
  | [], l => (l, none)
  | (k, v) :: rest, l =>
    match findField logFields k with
    | none => storeLogMembers parseFloatOK rest l
    | some .InsertId =>
      let x := storeString l.InsertId v
      let rs := storeLogMembers parseFloatOK rest { l with InsertId := x.1 }
      (rs.1, saveError x.2 rs.2)
    | some .LogName =>
      let x := storeString l.LogName v
      let rs := storeLogMembers parseFloatOK rest { l with LogName := x.1 }
      (rs.1, saveError x.2 rs.2)
    | some .ReceiveTimestamp =>
      let x := storeString l.ReceiveTimestamp v
      let rs := storeLogMembers parseFloatOK rest { l with ReceiveTimestamp := x.1 }
      (rs.1, saveError x.2 rs.2)
    | some .Resource =>
      let x := storeResource parseFloatOK l.Resource v
      let rs := storeLogMembers parseFloatOK rest { l with Resource := x.1 }
      (rs.1, saveError x.2 rs.2)
    | some .TextPayload =>
      let x := storeString l.TextPayload v
      let rs := storeLogMembers parseFloatOK rest { l with TextPayload := x.1 }
      (rs.1, saveError x.2 rs.2)
    | some .JSONPayload =>
      let x := storeMap parseFloatOK l.JSONPayload v
      let rs := storeLogMembers parseFloatOK rest { l with JSONPayload := x.1 }
      (rs.1, saveError x.2 rs.2)

/-- Store a JSON value into a `Log` (`decodeState.value` on a `*Log`): an
object fills the fields, `null` changes nothing, any other value is a type
error. -/
def storeLog (parseFloatOK : Bytes → Bool) (cur : Log) : Value → Log × Option DecodeError
  | .object members => storeLogMembers parseFloatOK members cur
  | .null => (cur, none)
  | v => (cur, some (.unmarshalType v.kind "p.Log"))

/-- The method `decodeState.unmarshal` on the bytes of one scanned value. The
scanner has accepted them, so `parseValue` reads them; `phase` stands for the
panic of a decoder out of step with its scanner. -/
def unmarshal (parseFloatOK : Bytes → Bool) (data : Bytes) (v : Log) :
    Log × Option DecodeError :=
  match parseValue (data.length + 1) data with
  | none => (v, some .phase)
  | some (val, _) => storeLog parseFloatOK v val

/-- The method `Decoder.Decode(&v)`: the decoder after the call, the
destination after the call, and the returned error. A sticky `dec.err` is
returned at once. A scan error is stored in `dec.err` and nothing is consumed.
Otherwise the value is consumed, and an error of `unmarshal` is returned
without being stored. -/
def Decoder.Decode (parseFloatOK : Bytes → Bool) (dec : Decoder) (v : Log) :
    Decoder × Log × Option DecodeError :=
  match dec.err with
  | some e => (dec, v, some e)
  | none =>
    match readValue dec.buf with
    | .error e => ({ dec with err := some e }, v, some e)
    | .ok n =>
      let r := unmarshal parseFloatOK (dec.buf.take n) v
      ({ dec with buf := dec.buf.drop n }, r.1, r.2)

/-! ## fmt -/

/-- The verb `%d` of `fmt.Sprintf` on an `int`. -/
def fmtInt (n : Int) : Bytes := utf8 (toString n)

/-- The increment of a Go `int` (64 bits on the function's platform), which
wraps around. -/
def wrapInt64 (x : Int) : Int := (x + 2 ^ 63) % 2 ^ 64 - 2 ^ 63

/-! ## mime/multipart: writer.go -/

/-- The struct `multipart.Writer` on top of the buffer `b`: the bytes written
so far, the boundary, and whether a part has been created. -/
structure Writer where
  b : Bytes
  boundary : Bytes
  lastpart : Bool
  deriving DecidableEq, Repr

/-- The call `multipart.NewWriter(b)` on an empty buffer; the library draws the
boundary at random. -/
def NewWriter (boundary : Bytes) : Writer := { b := [], boundary := boundary, lastpart := false }

/-- The function `escapeQuotes`: a backslash before every backslash and quote. -/
def escapeQuotes : Bytes → Bytes
  | [] => []
  | c :: cs => if c == 0x5C || c == 0x22 then 0x5C :: c :: escapeQuotes cs else c :: escapeQuotes cs

/-- The lines of a part header, `key: value` and a line break each. -/
def headerLines : List (Bytes × Bytes) → Bytes
  | [] => []
  | (k, v) :: rest => k ++ utf8 ": " ++ v ++ utf8 "\r\n" ++ headerLines rest

/-- The method `Writer.CreatePart`; `header` lists the header in the sorted
order of its keys, the order in which `CreatePart` writes them. A write into a
`bytes.Buffer` returns no error. -/
def Writer.CreatePart (w : Writer) (header : List (Bytes × Bytes)) : Except Bytes Writer :=
  let delim :=
    if w.lastpart then utf8 "\r\n--" ++ w.boundary ++ utf8 "\r\n"
    else utf8 "--" ++ w.boundary ++ utf8 "\r\n"
  .ok { w with b := w.b ++ delim ++ headerLines header ++ utf8 "\r\n", lastpart := true }

/-- The method `Writer.CreateFormFile`. -/
def Writer.CreateFormFile (w : Writer) (fieldname filename : Bytes) : Except Bytes Writer :=
  w.CreatePart
    [(utf8 "Content-Disposition",
        utf8 "form-data; name=\"" ++ escapeQuotes fieldname ++ utf8 "\"; filename=\""
          ++ escapeQuotes filename ++ utf8 "\""),
     (utf8 "Content-Type", utf8 "application/octet-stream")]

/-- The method `Writer.CreateFormField`. -/
def Writer.CreateFormField (w : Writer) (fieldname : Bytes) : Except Bytes Writer :=
  w.CreatePart
    [(utf8 "Content-Disposition", utf8 "form-data; name=\"" ++ escapeQuotes fieldname ++ utf8 "\"")]

/-- A write to the part created last (`io.Copy(fw, body)`, `ffw.Write`). -/
def Writer.Write (w : Writer) (p : Bytes) : Except Bytes Writer := .ok { w with b := w.b ++ p }

def isTSpecial (c : UInt8) : Bool := (utf8 "()<>@,;:\\\"/[]?= ").contains c

/-- The method `Writer.FormDataContentType`. -/
def Writer.FormDataContentType (w : Writer) : Bytes :=
  let b := if w.boundary.any isTSpecial then utf8 "\"" ++ w.boundary ++ utf8 "\"" else w.boundary
  utf8 "multipart/form-data; boundary=" ++ b

/-- The method `Writer.Close`. -/
def Writer.Close (w : Writer) : Except Bytes Writer :=
  .ok { w with b := w.b ++ utf8 "\r\n--" ++ w.boundary ++ utf8 "--\r\n", lastpart := false }

/-! ## The collaborators -/

/-- What `time.Now()` returns, as far as `genFilename` reads it. -/
structure Time where
  Year : Int
  Month : Int
  Day : Int
  Hour : Int
  Minute : Int
  Second : Int
  deriving DecidableEq, Repr

/-- An `*http.Request` as the program builds it. -/
structure Request where
  Method : Bytes
  URL : Bytes
  Header : List (Bytes × Bytes)
  Body : Bytes
  deriving DecidableEq, Repr

/-- An `*http.Response` as the program and the HTTP client read it: the status
code, the `Location` header (empty when there is none, as `Header.Get` gives
it) and what `ioutil.ReadAll(resp.Body)` returns. -/
structure Response where
  StatusCode : Int
  Location : Bytes
  Body : Except Bytes Bytes

/-- Everything outside the process that an invocation depends on. An error is
given by its text. -/
structure World where
  /-- Whether `strconv.ParseFloat(s, 64)` accepts the number literal. -/
  parseFloatOK : Bytes → Bool
  /-- The call `json.Marshal` on a decoded payload. -/
  Marshal : GoMap → Except Bytes Bytes
  /-- The error of `storage.NewClient(ctx)`, if any. -/
  NewClient : Option Bytes
  /-- The call `obj.NewReader(ctx)` for a bucket and an object name: the bytes
  of the object, or an error. -/
  NewReader : Bytes → Bytes → Except Bytes Bytes
  /-- The clock read by `time.Now()`. -/
  Now : Time
  /-- The boundary drawn by `multipart.NewWriter`. -/
  boundary : Bytes
  /-- The package variable `webhookURL`. -/
  webhookURL : Bytes
  /-- The error of `http.NewRequest` for a URL, if any. -/
  NewRequest : Bytes → Option Bytes
  /-- The transport of `http.DefaultClient` (`RoundTrip`): one request is put
  on the wire and answered, or fails with an error. What the transport does
  underneath (connections, a new attempt on a stale connection) is not
  modelled. -/
  RoundTrip : Request → Except Bytes Response
  /-- The call `req.URL.Parse(loc)` of the client for the URL of the request
  just answered and the `Location` it was answered with: the URL of the next
  hop, or an error. -/
  ParseLocation : Bytes → Bytes → Except Bytes Bytes
  /-- The header the client gives the next hop, from the first request, the
  request just answered and the URL of the hop (the header of the first
  request copied, and a `Referer`). -/
  RedirectHeader : Request → Request → Bytes → List (Bytes × Bytes)
  /-- The text of the `*url.Error` in which the client wraps an error, from the
  URL it names and the text of the error. -/
  urlError : Bytes → Bytes → Bytes

/-- The struct `GCSEvent`. -/
structure GCSEvent where
  Bucket : Bytes
  Name : Bytes
  deriving DecidableEq, Repr

/-! ## net/http: client.go -/

/-- The function `redirectBehavior` for a first request that carries `GetBody`
(`http.NewRequest` sets it for a `*bytes.Buffer` body): the method of the next
hop, whether the client redirects, and whether the hop carries the body. -/
def redirectBehavior (reqMethod : Bytes) (resp : Response) : Bytes × Bool × Bool :=
  if resp.StatusCode = 301 ∨ resp.StatusCode = 302 ∨ resp.StatusCode = 303 then
    (if reqMethod ≠ utf8 "GET" ∧ reqMethod ≠ utf8 "HEAD" then utf8 "GET" else reqMethod,
      true, false)
  else if resp.StatusCode = 307 ∨ resp.StatusCode = 308 then (reqMethod, true, true)
  else ([], false, false)

/-- What `Client.do` finds after sending one request: the result to return, or
the next hop of a redirect together with the `Location` that names it. -/
inductive Hop where
  | done (result : Except Bytes Response)
  | redirect (next : Request) (loc : Bytes)

/-- One turn of the loop of `Client.do`, up to the redirect policy: `req` is
handed to the transport; an error ends the call, and so does a response that
`redirectBehavior` does not redirect or that has no `Location`; otherwise the
`Location` is parsed and the next hop is built from the first request `ireq`:
the redirect method, the parsed URL, the copied header, and the body of `ireq`
when the redirect keeps the body. -/
def clientHop (w : World) (ireq req : Request) : Hop :=
  match w.RoundTrip req with
  | .error err => .done (.error (w.urlError req.URL err))
  | .ok resp =>
    match redirectBehavior req.Method resp with
    | (_, false, _) => .done (.ok resp)
    | (redirectMethod, true, includeBody) =>
      if resp.Location = [] then .done (.ok resp)
      else
        match w.ParseLocation req.URL resp.Location with
        | .error err => .done (.error (w.urlError req.URL err))
        | .ok u =>
          .redirect
            { Method := redirectMethod, URL := u, Header := w.RedirectHeader ireq req u,
              Body := if includeBody then ireq.Body else [] }
            resp.Location

/-- The loop of `Client.do` with the default redirect policy. `ireq` is the
first request, `req` the request to send now, `reqs` the requests sent before
it, and the first argument the number of redirects the policy still allows (10
less the length of `via` in `defaultCheckRedirect`): with none left a redirect
ends the call with the error `stopped after 10 redirects`. The result is what
`Do` returns and the requests handed to the transport, in order. -/
def clientDoLoop (w : World) (ireq : Request) :
    Nat → Request → List Request → Except Bytes Response × List Request
  | 0, req, reqs =>
    match clientHop w ireq req with
    | .done result => (result, reqs ++ [req])
    | .redirect _ loc =>
      (.error (w.urlError loc (utf8 "stopped after 10 redirects")), reqs ++ [req])
  | hops + 1, req, reqs =>
    match clientHop w ireq req with
    | .done result => (result, reqs ++ [req])
    | .redirect next _ => clientDoLoop w ireq hops next (reqs ++ [req])

/-- The call `http.DefaultClient.Do(req)`: the response or the error it
returns, and the requests it handed to the transport. The default client
follows redirects, up to ten requests in all. -/
def ClientDo (w : World) (req : Request) : Except Bytes Response × List Request :=
  clientDoLoop w req 9 req []

/-! ## function.go -/

/-- What a call of `postToDiscord` has done: the returned error (`none` is
nil), the requests it handed to `http.DefaultClient.Do`, and the requests the
client handed to the transport, in order. -/
structure PostResult where
  err : Option Bytes
  calls : List Request
  sent : List Request
  deriving DecidableEq, Repr

/-- The function `genFilename`. -/
def genFilename (w : World) : Bytes :=
  let now := w.Now
  utf8 "errlogs-" ++ fmtInt now.Year ++ utf8 "-" ++ fmtInt now.Month ++ utf8 "-"
    ++ fmtInt now.Day ++ utf8 "-" ++ fmtInt now.Hour ++ utf8 "-" ++ fmtInt now.Minute
    ++ utf8 "-" ++ fmtInt now.Second ++ utf8 ".txt"

/-- The function `postToDiscord`. -/
def postToDiscord (w : World) (message : Bytes) (body : Bytes) : PostResult :=
  let mw := NewWriter w.boundary
  match mw.CreateFormFile (utf8 "file") (genFilename w) with
  | .error err =>
    { err := some (utf8 "[error] failed to CreateFormFile: " ++ err), calls := [], sent := [] }
  | .ok mw =>
  match mw.Write body with
  | .error err =>
    { err := some (utf8 "[error] failed to io.Copy: " ++ err), calls := [], sent := [] }
  | .ok mw =>
  match mw.CreateFormField (utf8 "content") with
  | .error err =>
    { err := some (utf8 "[error] failed to CreateFormField: " ++ err), calls := [], sent := [] }
  | .ok mw =>
  match mw.Write message with
  | .error err =>
    { err := some (utf8 "[error] failed to Write: " ++ err), calls := [], sent := [] }
  | .ok mw =>
  let contentType := mw.FormDataContentType
  match mw.Close with
  | .error err =>
    { err := some (utf8 "[error] failed to Close: " ++ err), calls := [], sent := [] }
  | .ok mw =>
  match w.NewRequest w.webhookURL with
  | some err =>
    { err := some (utf8 "[error] failed to NewRequest: " ++ err), calls := [], sent := [] }
  | none =>
  let req : Request :=
    { Method := utf8 "POST", URL := w.webhookURL,
      Header := [(utf8 "Content-Type", contentType)], Body := mw.b }
  match ClientDo w req with
  | (.error err, sent) =>
    { err := some (utf8 "[error] failed to http.Do: " ++ err), calls := [req], sent := sent }
  | (.ok resp, sent) =>
  match resp.Body with
  | .error err => { err := some err, calls := [req], sent := sent }
  | .ok res =>
  if resp.StatusCode ≥ 400 then
    { err := some (utf8 "error: " ++ res), calls := [req], sent := sent }
  else { err := none, calls := [req], sent := sent }

/-- Lines 71 to 82 of the loop body, for a record that has been decoded: the
text buffer after the record's fragments are appended. -/
def extractText (w : World) (logData : Log) (text : Bytes) : Bytes :=
  let text := if logData.TextPayload ≠ [] then text ++ (logData.TextPayload ++ utf8 "\n") else text
  match logData.JSONPayload with
  | none => text
  | some payload =>
    match w.Marshal payload with
    | .error _ => text
    | .ok jtxt => text ++ jtxt ++ utf8 "\n"

/-- The variables the decode loop works on. -/
structure LoopState where
  d : Decoder
  text : Bytes
  logLines : Int
  deriving DecidableEq, Repr

/-- One pass through the body of `for d.More()`, lines 65 to 82. -/
def loopBody (w : World) (st : LoopState) : LoopState :=
  let logLines := wrapInt64 (st.logLines + 1)
  match st.d.Decode w.parseFloatOK Log.zero with
  | (d, _, some _) => { d := d, text := st.text, logLines := logLines }
  | (d, logData, none) => { d := d, text := extractText w logData st.text, logLines := logLines }

/-- The loop `for d.More() { ... }`, lines 64 to 83, cut off after `fuel` tests
of the loop condition: `none` when the loop is still running then. -/
def decodeLoop (w : World) : Nat → LoopState → Option LoopState
  | 0, _ => none
  | fuel + 1, st =>
    match st.d.More with
    | (d, false) => some { st with d := d }
    | (d, true) => decodeLoop w fuel (loopBody w { st with d := d })

/-- Lines 85 to 88: the status message for a record count. -/
def comment (logLines : Int) : Bytes :=
  let comment := utf8 "log length: " ++ fmtInt logLines
  if logLines ≥ 50 then utf8 "@everyone " ++ comment else comment

/-- What an invocation that returned has done: the returned error (`none` is
nil), the calls of `postToDiscord` with their arguments, the requests handed to
`http.DefaultClient.Do`, and the requests the client handed to the transport. -/
structure Outcome where
  ret : Option Bytes
  posts : List (Bytes × Bytes)
  calls : List Request
  sent : List Request
  deriving DecidableEq, Repr

/-- The function `NotifyToDiscord`, with the decode loop cut off after `fuel`
tests of its condition: `none` when the loop is still running then. -/
def NotifyToDiscord (w : World) (fuel : Nat) (e : GCSEvent) : Option Outcome :=
  match w.NewClient with
  | some _ => some { ret := none, posts := [], calls := [], sent := [] }
  | none =>
  match w.NewReader e.Bucket e.Name with
  | .error _ => some { ret := none, posts := [], calls := [], sent := [] }
  | .ok r =>
  match decodeLoop w fuel { d := NewDecoder r, text := [], logLines := 0 } with
  | none => none
  | some st =>
  let comment := comment st.logLines
  let r := postToDiscord w comment st.text
  match r.err with
  | some _ =>
    some { ret := none, posts := [(comment, st.text)], calls := r.calls, sent := r.sent }
  | none =>
    some { ret := none, posts := [(comment, st.text)], calls := r.calls, sent := r.sent }

/-! ## Definitions used in the statements -/

/-- No byte of `b` is a backslash or a double quote. -/
def noQuote (b : Bytes) : Prop := ∀ c ∈ b, c ≠ 0x5C ∧ c ≠ 0x22

instance (b : Bytes) : Decidable (noQuote b) := by
  unfold noQuote
  infer_instance

/-- The characters of a decimal rendering. -/
def decimalChars : List Char := ['0', '1', '2', '3', '4', '5', '6', '7', '8', '9', '-']

/-- The fragment a decoded record contributes for its text payload. -/
def textFragment (logData : Log) : Bytes :=
  if logData.TextPayload ≠ [] then logData.TextPayload ++ utf8 "\n" else []

/-- The fragment a decoded record contributes for its structured payload. -/
def jsonFragment (w : World) (logData : Log) : Bytes :=
  match logData.JSONPayload with
  | none => []
  | some payload =>
    match w.Marshal payload with
    | .error _ => []
    | .ok jtxt => jtxt ++ utf8 "\n"

/-- The request `postToDiscord` builds from a status message and a text
buffer, before `http.NewRequest` and the transport have their say. -/
def uploadRequest (w : World) (message body : Bytes) : Request :=
  { Method := utf8 "POST", URL := w.webhookURL,
    Header := [(utf8 "Content-Type", (NewWriter w.boundary).FormDataContentType)],
    Body :=
      utf8 "--" ++ w.boundary ++ utf8 "\r\n"
        ++ utf8 "Content-Disposition: form-data; name=\"file\"; filename=\""
        ++ escapeQuotes (genFilename w) ++ utf8 "\"\r\n"
        ++ utf8 "Content-Type: application/octet-stream\r\n" ++ utf8 "\r\n"
        ++ body
        ++ utf8 "\r\n--" ++ w.boundary ++ utf8 "\r\n"
        ++ utf8 "Content-Disposition: form-data; name=\"content\"\r\n" ++ utf8 "\r\n"
        ++ message
        ++ utf8 "\r\n--" ++ w.boundary ++ utf8 "--\r\n" }

/-- A world for examples: the object `object` is in the bucket, the webhook
answers every request with the status `status` and the body `answer`. -/
def exampleWorld (object : Bytes) (status : Int) (answer : Bytes) : World :=
  { parseFloatOK := fun _ => true,
    Marshal := fun m =>
      match m with
      | [] => .ok (utf8 "\x7b\x7d")
      | _ => .error (utf8 "json: unsupported value"),
    NewClient := none,
    NewReader := fun _ _ => .ok object,
    Now := { Year := 2021, Month := 3, Day := 7, Hour := 9, Minute := 5, Second := 0 },
    boundary := utf8 "0123456789abcdef",
    webhookURL := utf8 "https://discord.example/api/webhooks/1/t",
    NewRequest := fun _ => none,
    RoundTrip := fun _ => .ok { StatusCode := status, Location := [], Body := .ok answer },
    ParseLocation := fun _ loc => .ok loc,
    RedirectHeader := fun ireq _ _ => ireq.Header,
    urlError := fun url err => utf8 "Post \"" ++ url ++ utf8 "\": " ++ err }

/-- An event for examples. -/
def exampleEvent : GCSEvent := { Bucket := utf8 "logs", Name := utf8 "errors.json" }

/-- The client follows this response: a redirect status that comes with a
`Location`. -/
def isFollowed (resp : Response) : Bool :=
  decide (resp.StatusCode = 301 ∨ resp.StatusCode = 302 ∨ resp.StatusCode = 303
    ∨ resp.StatusCode = 307 ∨ resp.StatusCode = 308) && !resp.Location.isEmpty

/-- A world whose webhook has moved: the configured URL answers 307 with the
`Location` of the new endpoint, which answers 204. The object is empty. -/
def redirectWorld : World :=
  { exampleWorld [] 204 [] with
    RoundTrip := fun req =>
      if req.URL = utf8 "https://discord.example/api/webhooks/1/t" then
        .ok { StatusCode := 307, Location := utf8 "https://discord.example/api/webhooks/2/t",
              Body := .ok [] }
      else .ok { StatusCode := 204, Location := [], Body := .ok [] } }

/-- The scanner, started in state `s`, reads all of `u` and finds at the last
byte of `u`, and not before, the bracket that closes the top-level value: `u`
is the text of exactly one JSON object or array. -/
def closesAt : scanner → Bytes → Bool
  | _, [] => false
  | s, c :: cs =>
    match s.doStep c with
    | (_, .scanEnd) => false
    | (s, .scanEndObject) =>
      match stateEndValue s 0x20 with
      | (_, .scanEnd) => cs.isEmpty
      | (s, _) => closesAt s cs
    | (s, .scanEndArray) =>
      match stateEndValue s 0x20 with
      | (_, .scanEnd) => cs.isEmpty
      | (s, _) => closesAt s cs
    | (_, .scanError) => false
    | (s, _) => closesAt s cs

/-- The text of one JSON object: it starts with the opening brace and the
scanner closes the value at its last byte. -/
def isObjectText (u : Bytes) : Bool := u.head? == some 0x7B && closesAt scanner.init u

/-- What one pass of the loop body appends to the text buffer for the value
text `u`: the fragments of the record when `u` decodes into a `Log`, nothing
when `Decode` returns an error. -/
def unitFragments (w : World) (u : Bytes) : Bytes :=
  match unmarshal w.parseFloatOK u Log.zero with
  | (logData, none) => textFragment logData ++ jsonFragment w logData
  | (_, some _) => []

/-- A stream of value texts, each followed by its white space. -/
def unitsBytes : List (Bytes × Bytes) → Bytes
  | [] => []
  | p :: rest => p.1 ++ (p.2 ++ unitsBytes rest)

/-- The white space left unread when the loop ends: what follows the last
value text, or the leading white space when there is no value. -/
def trailing : Bytes → List (Bytes × Bytes) → Bytes
  | lead, [] => lead
  | _, p :: rest => trailing p.2 rest

/-- The counter after `k` increments. -/
def countAfter : Nat → Int → Int
  | 0, n => n
  | k + 1, n => countAfter k (wrapInt64 (n + 1))

/-- The text payload the value text `u` decodes to. -/
def textOf (w : World) (u : Bytes) : Bytes :=
  (unmarshal w.parseFloatOK u Log.zero).1.TextPayload

/-- The value text `u` is a log object that carries only a text payload: it is
the text of one JSON object, it decodes into a `Log` without error, the text
payload is not empty and the structured payload is nil. -/
def isTextRecord (w : World) (u : Bytes) : Bool :=
  isObjectText u && (unmarshal w.parseFloatOK u Log.zero).2.isNone
    && !(textOf w u).isEmpty && (unmarshal w.parseFloatOK u Log.zero).1.JSONPayload.isNone

/-- The sixty value texts `{"textPayload":"line i"}`, one per line. -/
def sixtyLines : List (Bytes × Bytes) :=
  (List.range 60).map
    (fun i => (utf8 ("\x7b\"textPayload\":\"line " ++ toString (i + 1) ++ "\"\x7d"), utf8 "\n"))

/-- A byte that stands for itself inside a JSON string: ASCII, not a control
character, not a quote, not a backslash. -/
def isPlainByte (c : UInt8) : Bool := 0x20 ≤ c && c < 0x80 && c != 0x22 && c != 0x5C

/-- The record text of a log record with the text payload `t` alone. -/
def textRecord (t : Bytes) : Bytes := utf8 "\x7b\"textPayload\":\"" ++ (t ++ utf8 "\"\x7d")

/-- The scanner inside the string that follows the key of a record text. -/
def inTextPayload : scanner :=
  { step := .stateInString, endTop := false, parseState := [.parseObjectValue], err := none }

/-- The stream of the records `{"textPayload":"t"}` for the texts `t` of `recs`,
each followed by its white space. -/
def textRecords (recs : List (Bytes × Bytes)) : List (Bytes × Bytes) :=
  recs.map (fun r => (textRecord r.1, r.2))

/-! ## Lemmas on bytes and formatting -/

theorem utf8_append (a b : String) : utf8 (a ++ b) = utf8 a ++ utf8 b := by
  simp [utf8]

theorem escapeQuotes_of_noQuote : ∀ b : Bytes, noQuote b → escapeQuotes b = b
  | [], _ => rfl
  | c :: cs, h => by
    have hc := h c (List.mem_cons_self c cs)
    have hcs : noQuote cs := fun x hx => h x (List.mem_cons_of_mem c hx)
    have h1 : (c == 0x5C) = false := by simpa using hc.1
    have h2 : (c == 0x22) = false := by simpa using hc.2
    simp [escapeQuotes, h1, h2, escapeQuotes_of_noQuote cs hcs]

theorem noQuote_append {a b : Bytes} (ha : noQuote a) (hb : noQuote b) : noQuote (a ++ b) := by
  intro c hc
  rcases List.mem_append.mp hc with h | h
  · exact ha c h
  · exact hb c h

theorem digitChar_mem (n : Nat) : Nat.digitChar (n % 10) ∈ decimalChars := by
  have h : n % 10 < 10 := Nat.mod_lt n (by decide)
  generalize n % 10 = k at h
  interval_cases k <;> decide

theorem toDigitsCore_mem (fuel : Nat) : ∀ (n : Nat) (ds : List Char),
    (∀ c ∈ ds, c ∈ decimalChars) → ∀ c ∈ Nat.toDigitsCore 10 fuel n ds, c ∈ decimalChars := by
  induction fuel with
  | zero => intro n ds h c hc; exact h c (by simpa [Nat.toDigitsCore] using hc)
  | succ fuel ih =>
    intro n ds h c hc
    have hds : ∀ c ∈ Nat.digitChar (n % 10) :: ds, c ∈ decimalChars := by
      intro x hx
      rcases List.mem_cons.mp hx with rfl | hx
      · exact digitChar_mem n
      · exact h x hx
    simp only [Nat.toDigitsCore] at hc
    split at hc
    · exact hds c hc
    · exact ih _ _ hds c hc

theorem toString_nat_mem (n : Nat) : ∀ c ∈ (toString n).toList, c ∈ decimalChars := by
  intro c hc
  have : (toString n).toList = Nat.toDigits 10 n := rfl
  rw [this] at hc
  exact toDigitsCore_mem _ _ [] (by simp) c hc

theorem toString_int_mem (n : Int) : ∀ c ∈ (toString n).toList, c ∈ decimalChars := by
  cases n with
  | ofNat m => exact toString_nat_mem m
  | negSucc m =>
    intro c hc
    have : (toString (Int.negSucc m)).toList = '-' :: (toString (m + 1)).toList := rfl
    rw [this] at hc
    rcases List.mem_cons.mp hc with rfl | hc
    · decide
    · exact toString_nat_mem _ c hc

theorem noQuote_fmtInt (n : Int) : noQuote (fmtInt n) := by
  intro b hb
  simp only [fmtInt, utf8, List.mem_flatten, List.mem_map] at hb
  obtain ⟨l, ⟨c, hc, rfl⟩, hb⟩ := hb
  have hmem := toString_int_mem n c hc
  simp only [decimalChars, List.mem_cons, List.mem_singleton, List.not_mem_nil, or_false] at hmem
  rcases hmem with rfl | rfl | rfl | rfl | rfl | rfl | rfl | rfl | rfl | rfl | rfl <;>
    revert b <;> decide

theorem noQuote_genFilename (w : World) : noQuote (genFilename w) := by
  have h0 : noQuote (utf8 "errlogs-") := by decide
  have hd : noQuote (utf8 "-") := by decide
  have ht : noQuote (utf8 ".txt") := by decide
  exact noQuote_append (noQuote_append (noQuote_append (noQuote_append (noQuote_append (noQuote_append (noQuote_append (noQuote_append (noQuote_append (noQuote_append (noQuote_append (noQuote_append h0 (noQuote_fmtInt _)) hd) (noQuote_fmtInt _)) hd) (noQuote_fmtInt _)) hd) (noQuote_fmtInt _)) hd) (noQuote_fmtInt _)) hd) (noQuote_fmtInt _)) ht

theorem escapeQuotes_genFilename (w : World) : escapeQuotes (genFilename w) = genFilename w :=
  escapeQuotes_of_noQuote _ (noQuote_genFilename w)

/-! ## The status message -/

/-- C4. The status message is a function of the record count alone: below 50
it is `log length: ` followed by the decimal count, from 50 on it is
`@everyone log length: ` followed by the decimal count; in particular the
messages for 0, 49 and 50 are `log length: 0`, `log length: 49` and
`@everyone log length: 50`. -/
theorem comment_threshold (n : Int) :
    (n < 50 → comment n = utf8 ("log length: " ++ toString n)) ∧
    (50 ≤ n → comment n = utf8 ("@everyone log length: " ++ toString n)) ∧
    comment 0 = utf8 "log length: 0" ∧
    comment 49 = utf8 "log length: 49" ∧
    comment 50 = utf8 "@everyone log length: 50" := by
  refine ⟨fun h => ?_, fun h => ?_, by decide, by decide, by decide⟩
  · have h' : ¬ n ≥ 50 := by omega
    simp [comment, fmtInt, h', utf8_append]
  · have h' : n ≥ 50 := h
    simp only [comment, fmtInt, h', utf8_append, if_true]
    rw [← List.append_assoc]
    rfl

/-- C4 at the counts 7 and 60. -/
theorem comment_threshold_witness :
    ((7 : Int) < 50 ∧ comment 7 = utf8 "log length: 7") ∧
    ((50 : Int) ≤ 60 ∧ comment 60 = utf8 "@everyone log length: 60") :=
  ⟨⟨by decide, (comment_threshold 7).1 (by decide)⟩,
   ⟨by decide, (comment_threshold 60).2.1 (by decide)⟩⟩

/-! ## The text extraction step -/

theorem extractText_eq (w : World) (logData : Log) (text : Bytes) :
    extractText w logData text = text ++ (textFragment logData ++ jsonFragment w logData) := by
  unfold extractText textFragment jsonFragment
  cases logData.JSONPayload with
  | none => by_cases ht : logData.TextPayload = [] <;> simp [ht]
  | some payload =>
    simp only
    cases w.Marshal payload <;>
      by_cases ht : logData.TextPayload = [] <;> simp [ht, List.append_assoc]

/-- C5. For a decoded record the extraction step appends to the buffer the
text payload and a line break exactly when the text payload is not empty, and
then the serialized structured payload and a line break exactly when the
payload is not nil and `json.Marshal` succeeds on it: text first, JSON second,
nothing for a record with neither; when `json.Marshal` fails only the JSON
fragment is missing. The loop body appends exactly this for a record that
decodes. A `jsonPayload` of `{}` decodes to a map that is not nil, a
`jsonPayload` of `null` and a missing `jsonPayload` to nil. -/
theorem extractText_fragments (w : World) (logData : Log) (text : Bytes) :
    extractText w logData text
      = text
        ++ (if logData.TextPayload ≠ [] then logData.TextPayload ++ utf8 "\n" else [])
        ++ (match logData.JSONPayload with
            | none => []
            | some payload =>
              match w.Marshal payload with
              | .ok jtxt => jtxt ++ utf8 "\n"
              | .error _ => []) ∧
    (∀ st : LoopState, (st.d.Decode w.parseFloatOK Log.zero).2.2 = none →
      (loopBody w st).text
        = extractText w (st.d.Decode w.parseFloatOK Log.zero).2.1 st.text) ∧
    (unmarshal w.parseFloatOK (utf8 "\x7b\"jsonPayload\":\x7b\x7d\x7d") Log.zero).1.JSONPayload = some [] ∧
    (unmarshal w.parseFloatOK (utf8 "\x7b\"jsonPayload\":null\x7d") Log.zero).1.JSONPayload = none ∧
    (unmarshal w.parseFloatOK (utf8 "\x7b\"textPayload\":\"hello\"\x7d") Log.zero).1.JSONPayload
      = none := by
  refine ⟨?_, ?_, rfl, rfl, rfl⟩
  · rw [extractText_eq, List.append_assoc]
    congr 2
    unfold jsonFragment
    cases logData.JSONPayload with
    | none => rfl
    | some payload =>
      simp only
      cases w.Marshal payload <;> rfl
  · intro st h
    unfold loopBody
    generalize st.d.Decode w.parseFloatOK Log.zero = r at h
    obtain ⟨d, logData, err⟩ := r
    simp only at h
    subst h
    rfl

/-! ## The uploader -/

theorem escapeQuotes_file : escapeQuotes (utf8 "file") = utf8 "file" := by decide

theorem escapeQuotes_content : escapeQuotes (utf8 "content") = utf8 "content" := by decide

theorem fileHeader_eq (filename : Bytes) :
    headerLines
      [(utf8 "Content-Disposition",
          utf8 "form-data; name=\"" ++ escapeQuotes (utf8 "file") ++ utf8 "\"; filename=\""
            ++ escapeQuotes filename ++ utf8 "\""),
       (utf8 "Content-Type", utf8 "application/octet-stream")]
      = utf8 "Content-Disposition: form-data; name=\"file\"; filename=\""
          ++ (escapeQuotes filename
          ++ (utf8 "\"\r\n" ++ utf8 "Content-Type: application/octet-stream\r\n")) := by
  simp only [headerLines, escapeQuotes_file, List.append_assoc, List.append_nil]
  rfl

theorem fieldHeader_eq :
    headerLines
      [(utf8 "Content-Disposition",
          utf8 "form-data; name=\"" ++ escapeQuotes (utf8 "content") ++ utf8 "\"")]
      = utf8 "Content-Disposition: form-data; name=\"content\"\r\n" := by
  decide

/-- What `postToDiscord` does once the request is written: the outcome depends
on `http.NewRequest`, the client and the response only. -/
theorem postToDiscord_eq (w : World) (message body : Bytes) :
    postToDiscord w message body =
      match w.NewRequest w.webhookURL with
      | some err =>
        { err := some (utf8 "[error] failed to NewRequest: " ++ err), calls := [], sent := [] }
      | none =>
        match ClientDo w (uploadRequest w message body) with
        | (.error err, sent) =>
          { err := some (utf8 "[error] failed to http.Do: " ++ err),
            calls := [uploadRequest w message body], sent := sent }
        | (.ok resp, sent) =>
          match resp.Body with
          | .error err =>
            { err := some err, calls := [uploadRequest w message body], sent := sent }
          | .ok res =>
            if resp.StatusCode ≥ 400 then
              { err := some (utf8 "error: " ++ res),
                calls := [uploadRequest w message body], sent := sent }
            else { err := none, calls := [uploadRequest w message body], sent := sent } := by
  simp only [postToDiscord, NewWriter, Writer.CreateFormFile, Writer.CreateFormField,
    Writer.CreatePart, Writer.Write, Writer.Close, Bool.false_eq_true, if_false, if_true,
    fileHeader_eq, fieldHeader_eq]
  simp only [uploadRequest, Writer.FormDataContentType, NewWriter,
    List.nil_append, List.append_assoc]

/-- The three results of `postToDiscord` when `http.NewRequest` accepts the
URL, in terms of what the client returns. -/
theorem postToDiscord_of_request (w : World) (message body : Bytes)
    (hreq : w.NewRequest w.webhookURL = none) :
    (postToDiscord w message body).calls = [uploadRequest w message body] ∧
    (postToDiscord w message body).sent = (ClientDo w (uploadRequest w message body)).2 ∧
    (postToDiscord w message body).err
      = match (ClientDo w (uploadRequest w message body)).1 with
        | .error err => some (utf8 "[error] failed to http.Do: " ++ err)
        | .ok resp =>
          match resp.Body with
          | .error err => some err
          | .ok res => if resp.StatusCode ≥ 400 then some (utf8 "error: " ++ res) else none := by
  rw [postToDiscord_eq, hreq]
  simp only
  rcases ClientDo w (uploadRequest w message body) with ⟨res, sent⟩
  cases res with
  | error err => exact ⟨rfl, rfl, rfl⟩
  | ok resp =>
    simp only
    cases resp.Body with
    | error err => exact ⟨rfl, rfl, rfl⟩
    | ok res =>
      simp only
      split <;> exact ⟨rfl, rfl, rfl⟩

/-- When `http.NewRequest` rejects the URL, nothing is handed to the client. -/
theorem postToDiscord_of_no_request (w : World) (message body err : Bytes)
    (hreq : w.NewRequest w.webhookURL = some err) :
    (postToDiscord w message body).calls = [] ∧ (postToDiscord w message body).sent = [] := by
  rw [postToDiscord_eq, hreq]
  exact ⟨rfl, rfl⟩

theorem postToDiscord_calls_length (w : World) (message body : Bytes) :
    (postToDiscord w message body).calls.length ≤ 1 := by
  cases hreq : w.NewRequest w.webhookURL with
  | some err => rw [(postToDiscord_of_no_request w message body err hreq).1]; simp
  | none => rw [(postToDiscord_of_request w message body hreq).1]; simp

/-- When `http.NewRequest` accepts the URL, exactly the request `uploadRequest`
is handed to the client. -/
theorem postToDiscord_calls_of_request (w : World) (message body : Bytes)
    (hreq : w.NewRequest w.webhookURL = none) :
    (postToDiscord w message body).calls = [uploadRequest w message body] :=
  (postToDiscord_of_request w message body hreq).1

theorem postToDiscord_calls (w : World) (message body : Bytes) (req : Request)
    (h : (postToDiscord w message body).calls = [req]) :
    w.NewRequest w.webhookURL = none ∧ req = uploadRequest w message body := by
  cases hreq : w.NewRequest w.webhookURL with
  | some err =>
    rw [(postToDiscord_of_no_request w message body err hreq).1] at h
    simp at h
  | none =>
    rw [(postToDiscord_of_request w message body hreq).1] at h
    exact ⟨rfl, (List.cons.inj h).1.symm⟩

/-- The requests the client hands to the transport: those sent before, the
request sent now, and at most one more for each redirect still allowed. -/
theorem clientDoLoop_sent (w : World) (ireq : Request) :
    ∀ (hops : Nat) (req : Request) (reqs : List Request),
      ∃ rest, (clientDoLoop w ireq hops req reqs).2 = reqs ++ req :: rest ∧ rest.length ≤ hops
  | 0, req, reqs => by
    refine ⟨[], ?_, le_refl _⟩
    simp only [clientDoLoop]
    cases clientHop w ireq req <;> simp
  | hops + 1, req, reqs => by
    simp only [clientDoLoop]
    cases clientHop w ireq req with
    | done result => exact ⟨[], by simp, by simp⟩
    | redirect next loc =>
      obtain ⟨rest, hrest, hlen⟩ := clientDoLoop_sent w ireq hops next (reqs ++ [req])
      refine ⟨next :: rest, ?_, by simp; omega⟩
      simp only [hrest, List.append_assoc, List.singleton_append]

/-- When the transport's answer to a request is not followed, the client
returns after that one request. -/
theorem clientDoLoop_of_done (w : World) (ireq req : Request) (reqs : List Request)
    (result : Except Bytes Response) (h : clientHop w ireq req = .done result) (hops : Nat) :
    clientDoLoop w ireq hops req reqs = (result, reqs ++ [req]) := by
  cases hops <;> simp only [clientDoLoop, h]

/-- The client hands the request it is given to the transport first, and at
most ten requests in all. -/
theorem ClientDo_sent (w : World) (req : Request) :
    ∃ rest, (ClientDo w req).2 = req :: rest ∧ rest.length ≤ 9 := by
  obtain ⟨rest, h, hlen⟩ := clientDoLoop_sent w req 9 req []
  exact ⟨rest, by simpa [ClientDo] using h, hlen⟩

/-- The first request the client hands to the transport is the request it was
given. -/
theorem postToDiscord_sent_head (w : World) (message body : Bytes) :
    (postToDiscord w message body).sent.head? = (postToDiscord w message body).calls.head? := by
  cases hreq : w.NewRequest w.webhookURL with
  | some err =>
    obtain ⟨h1, h2⟩ := postToDiscord_of_no_request w message body err hreq
    rw [h1, h2]
  | none =>
    obtain ⟨h1, h2, _⟩ := postToDiscord_of_request w message body hreq
    obtain ⟨rest, hrest, _⟩ := ClientDo_sent w (uploadRequest w message body)
    rw [h1, h2, hrest]
    rfl

/-- At most ten requests reach the transport in one call of `postToDiscord`. -/
theorem postToDiscord_sent_length (w : World) (message body : Bytes) :
    (postToDiscord w message body).sent.length ≤ 10 := by
  cases hreq : w.NewRequest w.webhookURL with
  | some err => rw [(postToDiscord_of_no_request w message body err hreq).2]; simp
  | none =>
    obtain ⟨rest, hrest, hlen⟩ := ClientDo_sent w (uploadRequest w message body)
    rw [(postToDiscord_of_request w message body hreq).2.1, hrest]
    simp only [List.length_cons]
    omega

/-- C7. `postToDiscord` classifies the response by the status code alone: when
the request was handed to the client and the body `res` of the response the
client returned was read, the call fails exactly when the status is at least
400, and the failure then reads `error: ` followed by `res`; below 400 the call
succeeds. An error of the client and an error reading the response body are
failures whatever the status. -/
theorem postToDiscord_classifies (w : World) (message body : Bytes) (req : Request)
    (hsent : (postToDiscord w message body).calls = [req]) :
    (∀ resp res, (ClientDo w req).1 = .ok resp → resp.Body = .ok res →
      ((postToDiscord w message body).err ≠ none ↔ resp.StatusCode ≥ 400) ∧
      (resp.StatusCode ≥ 400 →
        (postToDiscord w message body).err = some (utf8 "error: " ++ res)) ∧
      (resp.StatusCode < 400 → (postToDiscord w message body).err = none)) ∧
    (∀ err, (ClientDo w req).1 = .error err →
      (postToDiscord w message body).err
        = some (utf8 "[error] failed to http.Do: " ++ err)) ∧
    (∀ resp err, (ClientDo w req).1 = .ok resp → resp.Body = .error err →
      (postToDiscord w message body).err = some err) := by
  obtain ⟨hn, rfl⟩ := postToDiscord_calls w message body req hsent
  have herr := (postToDiscord_of_request w message body hn).2.2
  refine ⟨?_, ?_, ?_⟩
  · intro resp res hd hb
    rw [herr]
    simp only [hd, hb]
    by_cases hs : resp.StatusCode ≥ 400
    · simp [hs]
    · have hlt : resp.StatusCode < 400 := by omega
      simp [hs, hlt]
  · intro err hd
    rw [herr]
    simp only [hd]
  · intro resp err hd hb
    rw [herr]
    simp only [hd, hb]

/-- C7 on a webhook that answers 500 with the body `server error`. -/
theorem postToDiscord_classifies_witness :
    (postToDiscord (exampleWorld [] 500 (utf8 "server error")) (utf8 "log length: 0") []).calls
      = [uploadRequest (exampleWorld [] 500 (utf8 "server error")) (utf8 "log length: 0") []] ∧
    (postToDiscord (exampleWorld [] 500 (utf8 "server error")) (utf8 "log length: 0") []).err
      = some (utf8 "error: server error") := by
  have hs : (postToDiscord (exampleWorld [] 500 (utf8 "server error"))
      (utf8 "log length: 0") []).calls
      = [uploadRequest (exampleWorld [] 500 (utf8 "server error")) (utf8 "log length: 0") []] :=
    postToDiscord_calls_of_request _ _ _ rfl
  exact ⟨hs,
   ((postToDiscord_classifies (exampleWorld [] 500 (utf8 "server error")) (utf8 "log length: 0")
      [] (uploadRequest (exampleWorld [] 500 (utf8 "server error")) (utf8 "log length: 0") [])
      hs).1 { StatusCode := 500, Location := [], Body := .ok (utf8 "server error") }
      (utf8 "server error") rfl rfl).2.1 (by decide)⟩

/-- C9. When the request is created, `postToDiscord` hands one request to the
client, and it is the first request the client sends: a POST to the webhook URL
whose body is a multipart form of two parts, first the file part named `file`
with the file name of `genFilename` and the text buffer as content, then the
field part named `content` with the status message as content, closed by the
final delimiter; its `Content-Type` header is `multipart/form-data` with the
boundary that delimits the parts. -/
theorem postToDiscord_request (w : World) (message body : Bytes)
    (hreq : w.NewRequest w.webhookURL = none) :
    (postToDiscord w message body).calls =
      [{ Method := utf8 "POST", URL := w.webhookURL,
         Header :=
          [(utf8 "Content-Type",
            utf8 "multipart/form-data; boundary="
              ++ (if w.boundary.any isTSpecial then utf8 "\"" ++ w.boundary ++ utf8 "\""
                  else w.boundary))],
         Body :=
          utf8 "--" ++ w.boundary ++ utf8 "\r\n"
            ++ utf8 "Content-Disposition: form-data; name=\"file\"; filename=\""
            ++ genFilename w ++ utf8 "\"\r\n"
            ++ utf8 "Content-Type: application/octet-stream\r\n" ++ utf8 "\r\n"
            ++ body
            ++ utf8 "\r\n--" ++ w.boundary ++ utf8 "\r\n"
            ++ utf8 "Content-Disposition: form-data; name=\"content\"\r\n" ++ utf8 "\r\n"
            ++ message
            ++ utf8 "\r\n--" ++ w.boundary ++ utf8 "--\r\n" }] ∧
    (postToDiscord w message body).sent.head?
      = (postToDiscord w message body).calls.head? := by
  refine ⟨?_, postToDiscord_sent_head w message body⟩
  rw [postToDiscord_calls_of_request w message body hreq]
  simp only [uploadRequest, escapeQuotes_genFilename, Writer.FormDataContentType, NewWriter]

/-! ## The decode loop on a stream of complete values -/

/-- The scanning loop of `readValue` in front of a complete object or array
text `u`: it stops right after `u`, whatever follows. -/
theorem readValueLoop_of_closesAt (all rest : Bytes) :
    ∀ (u : Bytes) (s : scanner) (n : Nat), closesAt s u = true →
      readValueLoop all s (u ++ rest) n = .ok (n + u.length)
  | [], _, _, h => by simp [closesAt] at h
  | c :: cs, s, n, h => by
    have ih := readValueLoop_of_closesAt all rest cs
    rw [closesAt] at h
    rw [List.cons_append, readValueLoop]
    rcases hstep : s.doStep c with ⟨s1, op⟩
    rw [hstep] at h
    cases op with
    | scanEnd => simp at h
    | scanError => simp at h
    | scanEndObject =>
      simp only at h ⊢
      rcases hend : stateEndValue s1 0x20 with ⟨s2, op2⟩
      rw [hend] at h
      cases op2 <;> simp only at h ⊢ <;>
        first
          | (rw [ih s2 (n + 1) h, List.length_cons]; congr 1; omega)
          | (have hnil : cs = [] := by simpa using h
             subst hnil; simp)
    | scanEndArray =>
      simp only at h ⊢
      rcases hend : stateEndValue s1 0x20 with ⟨s2, op2⟩
      rw [hend] at h
      cases op2 <;> simp only at h ⊢ <;>
        first
          | (rw [ih s2 (n + 1) h, List.length_cons]; congr 1; omega)
          | (have hnil : cs = [] := by simpa using h
             subst hnil; simp)
    | scanContinue | scanBeginLiteral | scanBeginObject | scanObjectKey | scanObjectValue
      | scanBeginArray | scanArrayValue | scanSkipSpace =>
      simp only at h ⊢
      rw [ih s1 (n + 1) h, List.length_cons]; congr 1; omega

theorem readValue_of_closesAt (u rest : Bytes) (h : closesAt scanner.init u = true) :
    readValue (u ++ rest) = .ok u.length := by
  unfold readValue
  rw [readValueLoop_of_closesAt _ rest u scanner.init 0 h]
  simp

/-- Below 2^63 the counter does not wrap. -/
theorem countAfter_eq (k : Nat) : ∀ n : Int, 0 ≤ n → n + k < 2 ^ 63 → countAfter k n = n + k := by
  induction k with
  | zero => intro n _ _; simp [countAfter]
  | succ k ih =>
    intro n h0 hlt
    have hw : wrapInt64 (n + 1) = n + 1 := by
      unfold wrapInt64
      push_cast at hlt
      omega
    rw [countAfter, hw, ih (n + 1) (by omega) (by push_cast at hlt ⊢; omega)]
    push_cast
    omega

theorem dropWhile_append_of_all (p : UInt8 → Bool) (rest : Bytes) :
    ∀ ws : Bytes, ws.all p = true → (ws ++ rest).dropWhile p = rest.dropWhile p
  | [], _ => rfl
  | c :: cs, h => by
    simp only [List.all_cons, Bool.and_eq_true] at h
    simp [List.dropWhile, h.1, dropWhile_append_of_all p rest cs h.2]

theorem isObjectText_cons {u : Bytes} (h : isObjectText u = true) :
    ∃ cs, u = 0x7B :: cs ∧ closesAt scanner.init u = true := by
  unfold isObjectText at h
  simp only [Bool.and_eq_true, beq_iff_eq] at h
  cases u with
  | nil => simp at h
  | cons c cs =>
    simp only [List.head?_cons, Option.some.injEq] at h
    exact ⟨cs, by rw [h.1], h.2⟩

/-- The loop condition in front of an object text: `More` skips the white
space and reports a value. -/
theorem More_before_object (lead u rest : Bytes) (e : Option DecodeError)
    (hlead : lead.all isSpace = true) (hu : isObjectText u = true) :
    Decoder.More { buf := lead ++ (u ++ rest), err := e }
      = ({ buf := u ++ rest, err := e }, true) := by
  obtain ⟨cs, rfl, _⟩ := isObjectText_cons hu
  unfold Decoder.More Decoder.peek
  simp only [dropWhile_append_of_all isSpace _ lead hlead]
  have h1 : (0x7B :: cs ++ rest).dropWhile isSpace = 0x7B :: (cs ++ rest) := by
    simp [List.dropWhile, isSpace]
  rw [h1]
  rfl

/-- The loop condition at the end of the stream: only white space is left. -/
theorem More_at_end (lead : Bytes) (e : Option DecodeError) (hlead : lead.all isSpace = true) :
    Decoder.More { buf := lead, err := e } = ({ buf := lead, err := e }, false) := by
  unfold Decoder.More Decoder.peek
  have h := dropWhile_append_of_all isSpace [] lead hlead
  simp only [List.append_nil, List.dropWhile_nil] at h
  simp only [h]

/-- One pass of the loop body on a decoder that stands at an object text. -/
theorem loopBody_object (w : World) (u rest text : Bytes) (n : Int)
    (hu : isObjectText u = true) :
    loopBody w { d := { buf := u ++ rest, err := none }, text := text, logLines := n }
      = { d := { buf := rest, err := none }, text := text ++ unitFragments w u,
          logLines := wrapInt64 (n + 1) } := by
  obtain ⟨cs, hcs, hclose⟩ := isObjectText_cons hu
  unfold loopBody Decoder.Decode unitFragments
  simp only [readValue_of_closesAt u rest hclose, List.take_left', List.drop_left']
  rcases hum : unmarshal w.parseFloatOK u Log.zero with ⟨logData, err⟩
  cases err with
  | none => simp only [extractText_eq]
  | some e => simp

/-- The decode loop on a stream of object texts with white space around them.
With more fuel than values the loop ends: every value has been through one pass
of the body, in stream order, a value that decodes has added its fragments, a
value on which `Decode` reports a type error has added nothing, and the counter
has been incremented once per value. -/
theorem decodeLoop_units (w : World) :
    ∀ (units : List (Bytes × Bytes)) (lead text : Bytes) (n : Int) (fuel : Nat),
      lead.all isSpace = true →
      (∀ p ∈ units, isObjectText p.1 = true ∧ p.2.all isSpace = true) →
      units.length < fuel →
      decodeLoop w fuel
          { d := { buf := lead ++ unitsBytes units, err := none }, text := text, logLines := n }
        = some { d := { buf := trailing lead units, err := none },
                 text := text ++ (units.map (fun p => unitFragments w p.1)).flatten,
                 logLines := countAfter units.length n }
  | [], lead, text, n, fuel, hlead, _, hfuel => by
    obtain ⟨f, rfl⟩ : ∃ f, fuel = f + 1 := ⟨fuel - 1, by simp at hfuel; omega⟩
    simp only [unitsBytes, List.append_nil, decodeLoop, More_at_end lead none hlead,
      List.map_nil, List.flatten_nil, List.length_nil, countAfter, trailing]
  | p :: rest, lead, text, n, fuel, hlead, hunits, hfuel => by
    obtain ⟨f, rfl⟩ : ∃ f, fuel = f + 1 := ⟨fuel - 1, by simp at hfuel; omega⟩
    have hp := hunits p (List.mem_cons_self p rest)
    have hrest : ∀ q ∈ rest, isObjectText q.1 = true ∧ q.2.all isSpace = true :=
      fun q hq => hunits q (List.mem_cons_of_mem p hq)
    have hlen : rest.length < f := by simp at hfuel; omega
    simp only [unitsBytes, decodeLoop, More_before_object lead p.1 _ none hlead hp.1,
      loopBody_object w p.1 _ text n hp.1]
    rw [decodeLoop_units w rest p.2 _ _ f hp.2 hrest hlen]
    simp [countAfter, List.append_assoc, trailing]

/-- What `NotifyToDiscord` returns once the object is open and the decode loop
has finished in the state `st`. -/
theorem NotifyToDiscord_of_loop (w : World) (fuel : Nat) (e : GCSEvent) (r : Bytes)
    (st : LoopState) (hclient : w.NewClient = none)
    (hobj : w.NewReader e.Bucket e.Name = .ok r)
    (hloop : decodeLoop w fuel { d := NewDecoder r, text := [], logLines := 0 } = some st) :
    NotifyToDiscord w fuel e
      = some { ret := none, posts := [(comment st.logLines, st.text)],
               calls := (postToDiscord w (comment st.logLines) st.text).calls,
               sent := (postToDiscord w (comment st.logLines) st.text).sent } := by
  unfold NotifyToDiscord
  simp only [hclient, hobj, hloop]
  rcases postToDiscord w (comment st.logLines) st.text with ⟨err, sent⟩
  cases err <;> rfl

theorem unitFragments_of_isTextRecord (w : World) (u : Bytes) (h : isTextRecord w u = true) :
    unitFragments w u = textOf w u ++ utf8 "\n" := by
  unfold isTextRecord textOf at h
  unfold unitFragments textOf
  rcases hum : unmarshal w.parseFloatOK u Log.zero with ⟨logData, err⟩
  rw [hum] at h
  simp only [Bool.and_eq_true, Option.isNone_iff_eq_none, Bool.not_eq_true',
    List.isEmpty_eq_false] at h
  obtain ⟨⟨⟨_, herr⟩, htext⟩, hjson⟩ := h
  subst herr
  have htext' : logData.TextPayload ≠ [] := by
    intro h0
    rw [h0] at htext
    simp at htext
  simp [textFragment, jsonFragment, htext', hjson]

/-- C3. When the object is a stream of N JSON objects, in a row or with white
space around them, the invocation returns after decoding all N in the order of
the stream: `postToDiscord` is called once, with the status message composed
for the count N and with the fragments of the N values in stream order. When
each value is a log record that carries only a text payload `t_i`, not empty,
the text is `t_1 \n ... t_N \n`. When the request can be created, the request
handed to the client, which is the first request it sends, is the upload of
that status message with that text as the file part. -/
theorem NotifyToDiscord_text_records (w : World) (e : GCSEvent) (lead : Bytes)
    (units : List (Bytes × Bytes)) (fuel : Nat)
    (hclient : w.NewClient = none)
    (hobj : w.NewReader e.Bucket e.Name = .ok (lead ++ unitsBytes units))
    (hlead : lead.all isSpace = true)
    (hunits : ∀ p ∈ units, isObjectText p.1 = true ∧ p.2.all isSpace = true)
    (hlen : (units.length : Int) < 2 ^ 63)
    (hfuel : units.length < fuel) :
    NotifyToDiscord w fuel e
      = some { ret := none,
               posts := [(comment units.length,
                          (units.map (fun p => unitFragments w p.1)).flatten)],
               calls := (postToDiscord w (comment units.length)
                          (units.map (fun p => unitFragments w p.1)).flatten).calls,
               sent := (postToDiscord w (comment units.length)
                          (units.map (fun p => unitFragments w p.1)).flatten).sent } ∧
    ((∀ p ∈ units, isTextRecord w p.1 = true) →
      (units.map (fun p => unitFragments w p.1)).flatten
        = (units.map (fun p => textOf w p.1 ++ utf8 "\n")).flatten) ∧
    (w.NewRequest w.webhookURL = none →
      (postToDiscord w (comment units.length)
          (units.map (fun p => unitFragments w p.1)).flatten).calls
        = [uploadRequest w (comment units.length)
            (units.map (fun p => unitFragments w p.1)).flatten] ∧
      (postToDiscord w (comment units.length)
          (units.map (fun p => unitFragments w p.1)).flatten).sent.head?
        = some (uploadRequest w (comment units.length)
            (units.map (fun p => unitFragments w p.1)).flatten)) := by
  refine ⟨?_, ?_, fun hreq => ⟨postToDiscord_calls_of_request w _ _ hreq, ?_⟩⟩
  rotate_left 2
  · rw [postToDiscord_sent_head, postToDiscord_calls_of_request w _ _ hreq]
    rfl
  · have hloop := decodeLoop_units w units lead [] 0 fuel hlead hunits hfuel
    rw [countAfter_eq units.length 0 (le_refl 0) (by simpa using hlen)] at hloop
    simp only [List.nil_append, zero_add] at hloop
    exact NotifyToDiscord_of_loop w fuel e _ _ hclient hobj hloop
  · intro htext
    have hfrag : units.map (fun p => unitFragments w p.1)
        = units.map (fun p => textOf w p.1 ++ utf8 "\n") :=
      List.map_congr_left (fun p hp => unitFragments_of_isTextRecord w p.1 (htext p hp))
    rw [hfrag]

set_option maxRecDepth 100000 in
/-- C3 on the object of sixty lines `{"textPayload":"line i"}`: the status
message is `@everyone log length: 60` and the text is the sixty lines in order. -/
theorem NotifyToDiscord_text_records_witness :
    (∀ p ∈ sixtyLines, isObjectText p.1 = true ∧ p.2.all isSpace = true) ∧
    (∀ p ∈ sixtyLines,
      isTextRecord (exampleWorld (unitsBytes sixtyLines) 204 []) p.1 = true) ∧
    (NotifyToDiscord (exampleWorld (unitsBytes sixtyLines) 204 []) 61 exampleEvent).map
        (fun o => (o.ret, o.posts))
      = some (none,
          [(utf8 "@everyone log length: 60",
            utf8 "line 1\nline 2\nline 3\nline 4\nline 5\nline 6\nline 7\nline 8\nline 9\nline 10\nline 11\nline 12\nline 13\nline 14\nline 15\nline 16\nline 17\nline 18\nline 19\nline 20\nline 21\nline 22\nline 23\nline 24\nline 25\nline 26\nline 27\nline 28\nline 29\nline 30\nline 31\nline 32\nline 33\nline 34\nline 35\nline 36\nline 37\nline 38\nline 39\nline 40\nline 41\nline 42\nline 43\nline 44\nline 45\nline 46\nline 47\nline 48\nline 49\nline 50\nline 51\nline 52\nline 53\nline 54\nline 55\nline 56\nline 57\nline 58\nline 59\nline 60\n")]) := by
  have h := NotifyToDiscord_text_records (exampleWorld (unitsBytes sixtyLines) 204 [])
    exampleEvent [] sixtyLines 61 rfl rfl rfl (by decide) (by decide) (by decide)
  refine ⟨by decide, by decide, ?_⟩
  rw [h.1, h.2.1 (by decide)]
  decide

/-! ## The decode loop on malformed input -/

/-- Once `dec.err` is set and the next byte is neither white space nor a
closing bracket, the loop never ends: `More` keeps reporting a value, `Decode`
keeps returning the stored error, and the buffer stays as it is. -/
theorem decodeLoop_stuck (w : World) (c : UInt8) (cs : Bytes) (err : DecodeError)
    (hsp : isSpace c = false) (hc : (c != 0x5D && c != 0x7D) = true) :
    ∀ (fuel : Nat) (text : Bytes) (n : Int),
      decodeLoop w fuel { d := { buf := c :: cs, err := some err }, text := text, logLines := n }
        = none
  | 0, _, _ => rfl
  | fuel + 1, text, n => by
    have hmore : Decoder.More { buf := c :: cs, err := some err }
        = ({ buf := c :: cs, err := some err }, true) := by
      simp only [Decoder.More, Decoder.peek, List.dropWhile, hsp, hc]
    simp only [decodeLoop, hmore, loopBody, Decoder.Decode]
    exact decodeLoop_stuck w c cs err hsp hc fuel text _

/-- The loop condition in front of a byte that is neither white space nor a
closing bracket. -/
theorem More_before_byte (lead : Bytes) (c : UInt8) (cs : Bytes) (e : Option DecodeError)
    (hlead : lead.all isSpace = true) (hsp : isSpace c = false)
    (hc : (c != 0x5D && c != 0x7D) = true) :
    Decoder.More { buf := lead ++ c :: cs, err := e } = ({ buf := c :: cs, err := e }, true) := by
  simp only [Decoder.More, Decoder.peek, dropWhile_append_of_all isSpace _ lead hlead,
    List.dropWhile, hsp, hc]

/-- When the scan of the next value fails, the loop never ends. -/
theorem decodeLoop_diverges (w : World) (lead : Bytes) (c : UInt8) (cs : Bytes)
    (err : DecodeError) (hlead : lead.all isSpace = true)
    (hsp : isSpace c = false) (hc : (c != 0x5D && c != 0x7D) = true)
    (hscan : readValue (c :: cs) = .error err) (fuel : Nat) (text : Bytes) (n : Int) :
    decodeLoop w fuel { d := { buf := lead ++ c :: cs, err := none }, text := text, logLines := n }
      = none := by
  cases fuel with
  | zero => rfl
  | succ fuel =>
    simp only [decodeLoop, More_before_byte lead c cs none hlead hsp hc, loopBody,
      Decoder.Decode, hscan]
    exact decodeLoop_stuck w c cs err hsp hc fuel text _

/-- When the scan fails on the value after one object text, the loop never
ends either: the object is decoded, then the loop is stuck. -/
theorem decodeLoop_diverges_after_object (w : World) (u lead : Bytes) (c : UInt8) (cs : Bytes)
    (err : DecodeError) (hu : isObjectText u = true) (hlead : lead.all isSpace = true)
    (hsp : isSpace c = false) (hc : (c != 0x5D && c != 0x7D) = true)
    (hscan : readValue (c :: cs) = .error err) (fuel : Nat) (text : Bytes) (n : Int) :
    decodeLoop w fuel
        { d := { buf := u ++ (lead ++ c :: cs), err := none }, text := text, logLines := n }
      = none := by
  cases fuel with
  | zero => rfl
  | succ fuel =>
    have hmore := More_before_object [] u (lead ++ c :: cs) none rfl hu
    rw [List.nil_append] at hmore
    simp only [decodeLoop, hmore, loopBody_object w u _ text n hu]
    exact decodeLoop_diverges w lead c cs err hlead hsp hc hscan fuel _ _

/-! ## The invocation as a whole -/

/-- The two ways in which `NotifyToDiscord` returns: early, after a failure of
the storage client or of the reader, or after the loop and the upload. -/
theorem NotifyToDiscord_cases (w : World) (fuel : Nat) (e : GCSEvent) (o : Outcome)
    (h : NotifyToDiscord w fuel e = some o) :
    o = { ret := none, posts := [], calls := [], sent := [] } ∨
    ∃ r st, w.NewClient = none ∧ w.NewReader e.Bucket e.Name = .ok r ∧
      decodeLoop w fuel { d := NewDecoder r, text := [], logLines := 0 } = some st ∧
      o = { ret := none, posts := [(comment st.logLines, st.text)],
            calls := (postToDiscord w (comment st.logLines) st.text).calls,
            sent := (postToDiscord w (comment st.logLines) st.text).sent } := by
  cases hclient : w.NewClient with
  | some err =>
    left
    simp only [NotifyToDiscord, hclient, Option.some.injEq] at h
    exact h.symm
  | none =>
    cases hobj : w.NewReader e.Bucket e.Name with
    | error err =>
      left
      simp only [NotifyToDiscord, hclient, hobj, Option.some.injEq] at h
      exact h.symm
    | ok r =>
      right
      cases hloop : decodeLoop w fuel { d := NewDecoder r, text := [], logLines := 0 } with
      | none => simp [NotifyToDiscord, hclient, hobj, hloop] at h
      | some st =>
        rw [NotifyToDiscord_of_loop w fuel e r st hclient hobj hloop, Option.some.injEq] at h
        exact ⟨r, st, rfl, rfl, hloop, h.symm⟩

theorem NotifyToDiscord_of_client_error (w : World) (fuel : Nat) (e : GCSEvent)
    (h : w.NewClient ≠ none) :
    NotifyToDiscord w fuel e = some { ret := none, posts := [], calls := [], sent := [] } := by
  cases hclient : w.NewClient with
  | none => exact absurd hclient h
  | some err => simp only [NotifyToDiscord, hclient]

theorem NotifyToDiscord_of_reader_error (w : World) (fuel : Nat) (e : GCSEvent) (err : Bytes)
    (h : w.NewReader e.Bucket e.Name = .error err) :
    NotifyToDiscord w fuel e = some { ret := none, posts := [], calls := [], sent := [] } := by
  cases hclient : w.NewClient with
  | none => simp only [NotifyToDiscord, hclient, h]
  | some err => simp only [NotifyToDiscord, hclient]

/-- C6. `NotifyToDiscord` never returns a failure: whenever it returns, the
returned error is nil; and it does return, with nil, when the storage client
cannot be created, when the object cannot be opened, and whenever the decode
loop finishes, whatever `postToDiscord` then meets (a request that cannot be
built, a transport error, a response that cannot be read, a status of 400 or
more). -/
theorem NotifyToDiscord_never_fails (w : World) (fuel : Nat) (e : GCSEvent) :
    (∀ o, NotifyToDiscord w fuel e = some o → o.ret = none) ∧
    (w.NewClient ≠ none → ∃ o, NotifyToDiscord w fuel e = some o ∧ o.ret = none) ∧
    (∀ err, w.NewReader e.Bucket e.Name = .error err →
      ∃ o, NotifyToDiscord w fuel e = some o ∧ o.ret = none) ∧
    (∀ r st, w.NewReader e.Bucket e.Name = .ok r →
      decodeLoop w fuel { d := NewDecoder r, text := [], logLines := 0 } = some st →
      ∃ o, NotifyToDiscord w fuel e = some o ∧ o.ret = none) := by
  refine ⟨?_, ?_, ?_, ?_⟩
  · intro o h
    rcases NotifyToDiscord_cases w fuel e o h with rfl | ⟨r, st, _, _, _, rfl⟩ <;> rfl
  · intro h
    exact ⟨_, NotifyToDiscord_of_client_error w fuel e h, rfl⟩
  · intro err h
    exact ⟨_, NotifyToDiscord_of_reader_error w fuel e err h, rfl⟩
  · intro r st hobj hloop
    cases hclient : w.NewClient with
    | some err =>
      exact ⟨_, NotifyToDiscord_of_client_error w fuel e (by simp [hclient]), rfl⟩
    | none => exact ⟨_, NotifyToDiscord_of_loop w fuel e r st hclient hobj hloop, rfl⟩

/-- A response that the client does not follow ends the call of `Do` after the
one request. -/
theorem clientHop_of_not_followed (w : World) (ireq req : Request) (resp : Response)
    (hrt : w.RoundTrip req = .ok resp) (hf : isFollowed resp = false) :
    clientHop w ireq req = .done (.ok resp) := by
  unfold clientHop
  simp only [hrt]
  unfold redirectBehavior
  simp only [isFollowed, Bool.and_eq_false_iff, decide_eq_false_iff_not, Bool.not_eq_false',
    List.isEmpty_iff] at hf
  by_cases h1 : resp.StatusCode = 301 ∨ resp.StatusCode = 302 ∨ resp.StatusCode = 303
  · have hloc : resp.Location = [] := by
      rcases hf with hf | hf
      · exact absurd (by rcases h1 with h | h | h <;> simp [h]) hf
      · exact hf
    simp [h1, hloc]
  · by_cases h2 : resp.StatusCode = 307 ∨ resp.StatusCode = 308
    · have hloc : resp.Location = [] := by
        rcases hf with hf | hf
        · exact absurd (by rcases h2 with h | h <;> simp [h]) hf
        · exact hf
      simp [h1, h2, hloc]
    · simp [h1, h2]

/-- When the transport never answers with a redirect that the client follows,
`Do` hands exactly the request it was given to the transport. -/
theorem ClientDo_sent_of_not_followed (w : World) (req : Request)
    (h : ∀ r resp, w.RoundTrip r = .ok resp → isFollowed resp = false) :
    (ClientDo w req).2 = [req] := by
  unfold ClientDo
  cases hrt : w.RoundTrip req with
  | error err =>
    have hhop : clientHop w req req = .done (.error (w.urlError req.URL err)) := by
      simp only [clientHop, hrt]
    rw [clientDoLoop_of_done w req req [] _ hhop]
    rfl
  | ok resp =>
    rw [clientDoLoop_of_done w req req [] _
      (clientHop_of_not_followed w req req resp hrt (h req resp hrt))]
    rfl

theorem postToDiscord_sent_of_not_followed (w : World) (message body : Bytes)
    (h : ∀ r resp, w.RoundTrip r = .ok resp → isFollowed resp = false) :
    (postToDiscord w message body).sent = (postToDiscord w message body).calls := by
  cases hreq : w.NewRequest w.webhookURL with
  | some err =>
    obtain ⟨h1, h2⟩ := postToDiscord_of_no_request w message body err hreq
    rw [h1, h2]
  | none =>
    obtain ⟨h1, h2, _⟩ := postToDiscord_of_request w message body hreq
    rw [h1, h2, ClientDo_sent_of_not_followed w _ h]

/-- C8, amended. When the storage client cannot be created or the object cannot
be opened, the invocation returns nil without calling `postToDiscord`, without
a call of the HTTP client and without a request. When the object is open and
the decode loop finishes, `postToDiscord` is called exactly once, with the
status message and the text buffer of the loop, and it calls
`http.DefaultClient.Do` at most once, never a second time. The client sends the
request it is given first and then one request more for each redirect it
follows, at most ten requests in all; when the webhook never answers with a
redirect that the client follows, the requests sent are the one request handed
to the client, or none. -/
theorem NotifyToDiscord_posts_once (w : World) (fuel : Nat) (e : GCSEvent) :
    (w.NewClient ≠ none →
      NotifyToDiscord w fuel e = some { ret := none, posts := [], calls := [], sent := [] }) ∧
    (∀ err, w.NewReader e.Bucket e.Name = .error err →
      NotifyToDiscord w fuel e = some { ret := none, posts := [], calls := [], sent := [] }) ∧
    (∀ r st, w.NewClient = none → w.NewReader e.Bucket e.Name = .ok r →
      decodeLoop w fuel { d := NewDecoder r, text := [], logLines := 0 } = some st →
      ∃ o, NotifyToDiscord w fuel e = some o ∧ o.ret = none ∧
        o.posts = [(comment st.logLines, st.text)] ∧
        o.calls = (postToDiscord w (comment st.logLines) st.text).calls ∧
        o.sent = (postToDiscord w (comment st.logLines) st.text).sent) ∧
    (∀ o, NotifyToDiscord w fuel e = some o →
      o.posts.length ≤ 1 ∧ o.calls.length ≤ 1 ∧ o.sent.length ≤ 10 ∧
      o.sent.head? = o.calls.head? ∧
      ((∀ r resp, w.RoundTrip r = .ok resp → isFollowed resp = false) → o.sent = o.calls)) := by
  refine ⟨NotifyToDiscord_of_client_error w fuel e,
    NotifyToDiscord_of_reader_error w fuel e, ?_, ?_⟩
  · intro r st hclient hobj hloop
    exact ⟨_, NotifyToDiscord_of_loop w fuel e r st hclient hobj hloop, rfl, rfl, rfl, rfl⟩
  · intro o h
    rcases NotifyToDiscord_cases w fuel e o h with rfl | ⟨r, st, _, _, _, rfl⟩
    · simp
    · exact ⟨by simp, postToDiscord_calls_length w _ _, postToDiscord_sent_length w _ _,
        postToDiscord_sent_head w _ _, postToDiscord_sent_of_not_followed w _ _⟩

set_option maxRecDepth 100000 in
/-- C8 as first stated fails on a webhook that has moved: the answer 307 makes
the client send the upload a second time, to the new location, so one
invocation with one call of `postToDiscord` and one call of the client sends
two POST requests with the same body. -/
theorem redirect_sends_two_requests :
    (NotifyToDiscord redirectWorld 1 exampleEvent).map
        (fun o => (o.posts.length, o.calls.length, o.sent.length)) = some (1, 1, 2) ∧
    (NotifyToDiscord redirectWorld 1 exampleEvent).map
        (fun o => o.sent.map (fun r => (r.Method, r.URL)))
      = some [(utf8 "POST", utf8 "https://discord.example/api/webhooks/1/t"),
              (utf8 "POST", utf8 "https://discord.example/api/webhooks/2/t")] ∧
    (NotifyToDiscord redirectWorld 1 exampleEvent).map
        (fun o => o.sent.map (fun r => r.Body))
      = (NotifyToDiscord redirectWorld 1 exampleEvent).map
        (fun o => o.calls.map (fun r => r.Body) ++ o.calls.map (fun r => r.Body)) ∧
    ¬ (∀ o, NotifyToDiscord redirectWorld 1 exampleEvent = some o → o.sent.length ≤ 1) := by
  have h1 : (NotifyToDiscord redirectWorld 1 exampleEvent).map
      (fun o => (o.posts.length, o.calls.length, o.sent.length)) = some (1, 1, 2) := by decide
  refine ⟨h1, by decide, by decide, ?_⟩
  intro hall
  cases ho : NotifyToDiscord redirectWorld 1 exampleEvent with
  | none => rw [ho] at h1; simp at h1
  | some o =>
    have hle := hall o ho
    rw [ho] at h1
    simp only [Option.map_some', Option.some.injEq, Prod.mk.injEq] at h1
    omega

/-! ## Examples -/

/-- C5 on a record with both payloads, and on the loop body at the record
`{"textPayload":"hello"}`. -/
theorem extractText_fragments_witness :
    extractText (exampleWorld [] 204 [])
        { Log.zero with TextPayload := utf8 "hello", JSONPayload := some [] } (utf8 "x\n")
      = utf8 "x\nhello\n\x7b\x7d\n" ∧
    (Decoder.Decode (exampleWorld [] 204 []).parseFloatOK
        (NewDecoder (utf8 "\x7b\"textPayload\":\"hello\"\x7d")) Log.zero).2.2 = none ∧
    (loopBody (exampleWorld [] 204 [])
        { d := NewDecoder (utf8 "\x7b\"textPayload\":\"hello\"\x7d"), text := [], logLines := 0 }).text
      = utf8 "hello\n" :=
  ⟨(extractText_fragments (exampleWorld [] 204 [])
      { Log.zero with TextPayload := utf8 "hello", JSONPayload := some [] } (utf8 "x\n")).1.trans
      (by decide),
   by decide,
   ((extractText_fragments (exampleWorld [] 204 []) Log.zero []).2.1
      { d := NewDecoder (utf8 "\x7b\"textPayload\":\"hello\"\x7d"), text := [], logLines := 0 }
      (by decide)).trans (by decide)⟩

set_option maxRecDepth 100000 in
/-- C9 on the status message `log length: 1` and the text `hello`. -/
theorem postToDiscord_request_witness :
    (exampleWorld [] 204 []).NewRequest (exampleWorld [] 204 []).webhookURL = none ∧
    (postToDiscord (exampleWorld [] 204 []) (utf8 "log length: 1") (utf8 "hello\n")).calls
      = [{ Method := utf8 "POST",
           URL := utf8 "https://discord.example/api/webhooks/1/t",
           Header :=
            [(utf8 "Content-Type", utf8 "multipart/form-data; boundary=0123456789abcdef")],
           Body := utf8 ("--0123456789abcdef\r\n"
             ++ "Content-Disposition: form-data; name=\"file\"; "
             ++ "filename=\"errlogs-2021-3-7-9-5-0.txt\"\r\n"
             ++ "Content-Type: application/octet-stream\r\n\r\n"
             ++ "hello\n"
             ++ "\r\n--0123456789abcdef\r\n"
             ++ "Content-Disposition: form-data; name=\"content\"\r\n\r\n"
             ++ "log length: 1"
             ++ "\r\n--0123456789abcdef--\r\n") }] ∧
    (postToDiscord (exampleWorld [] 204 []) (utf8 "log length: 1") (utf8 "hello\n")).sent.head?
      = (postToDiscord (exampleWorld [] 204 []) (utf8 "log length: 1")
          (utf8 "hello\n")).calls.head? :=
  ⟨rfl,
   (postToDiscord_request (exampleWorld [] 204 []) (utf8 "log length: 1") (utf8 "hello\n")
      rfl).1.trans (by decide),
   (postToDiscord_request (exampleWorld [] 204 []) (utf8 "log length: 1") (utf8 "hello\n")
      rfl).2⟩

/-- C6 on an object whose only record fails to decode, with a webhook that
answers 500: the invocation returns nil. -/
theorem NotifyToDiscord_never_fails_witness :
    decodeLoop (exampleWorld (utf8 "\x7b\"textPayload\":5\x7d") 500 (utf8 "server error")) 2
        { d := NewDecoder (utf8 "\x7b\"textPayload\":5\x7d"), text := [], logLines := 0 }
      = some { d := { buf := [], err := none }, text := [], logLines := 1 } ∧
    ∃ o, NotifyToDiscord (exampleWorld (utf8 "\x7b\"textPayload\":5\x7d") 500 (utf8 "server error")) 2
        exampleEvent = some o ∧ o.ret = none :=
  ⟨by decide,
   (NotifyToDiscord_never_fails
      (exampleWorld (utf8 "\x7b\"textPayload\":5\x7d") 500 (utf8 "server error")) 2 exampleEvent).2.2.2
      (utf8 "\x7b\"textPayload\":5\x7d") { d := { buf := [], err := none }, text := [], logLines := 1 }
      rfl (by decide)⟩

/-- C8, amended, on a world without storage credentials, on a world without
the object, and on an object of one record whose webhook answers 204. -/
theorem NotifyToDiscord_posts_once_witness :
    NotifyToDiscord { exampleWorld [] 204 [] with NewClient := some (utf8 "no credentials") } 5
        exampleEvent = some { ret := none, posts := [], calls := [], sent := [] } ∧
    NotifyToDiscord
        { exampleWorld [] 204 [] with NewReader := fun _ _ => .error (utf8 "object not found") }
        5 exampleEvent = some { ret := none, posts := [], calls := [], sent := [] } ∧
    (∃ o, NotifyToDiscord (exampleWorld (utf8 "\x7b\"textPayload\":\"hello\"\x7d") 204 []) 2
        exampleEvent = some o ∧ o.ret = none ∧
      o.posts = [(comment 1, utf8 "hello\n")] ∧
      o.calls = (postToDiscord (exampleWorld (utf8 "\x7b\"textPayload\":\"hello\"\x7d") 204 [])
        (comment 1) (utf8 "hello\n")).calls ∧
      o.sent = (postToDiscord (exampleWorld (utf8 "\x7b\"textPayload\":\"hello\"\x7d") 204 [])
        (comment 1) (utf8 "hello\n")).sent) ∧
    (∀ o, NotifyToDiscord (exampleWorld (utf8 "\x7b\"textPayload\":\"hello\"\x7d") 204 []) 2
        exampleEvent = some o →
      o.posts.length ≤ 1 ∧ o.calls.length ≤ 1 ∧ o.sent.length ≤ 10 ∧
      o.sent.head? = o.calls.head? ∧ o.sent = o.calls) :=
  ⟨(NotifyToDiscord_posts_once
      { exampleWorld [] 204 [] with NewClient := some (utf8 "no credentials") } 5
      exampleEvent).1 (by decide),
   (NotifyToDiscord_posts_once
      { exampleWorld [] 204 [] with NewReader := fun _ _ => .error (utf8 "object not found") } 5
      exampleEvent).2.1 (utf8 "object not found") rfl,
   (NotifyToDiscord_posts_once (exampleWorld (utf8 "\x7b\"textPayload\":\"hello\"\x7d") 204 []) 2
      exampleEvent).2.2.1 (utf8 "\x7b\"textPayload\":\"hello\"\x7d")
      { d := { buf := [], err := none }, text := utf8 "hello\n", logLines := 1 }
      rfl rfl (by decide),
   fun o h =>
    have hall := (NotifyToDiscord_posts_once
      (exampleWorld (utf8 "\x7b\"textPayload\":\"hello\"\x7d") 204 []) 2 exampleEvent).2.2.2 o h
    ⟨hall.1, hall.2.1, hall.2.2.1, hall.2.2.2.1,
      hall.2.2.2.2 (fun _ resp hrt => by
        have hresp : resp = { StatusCode := 204, Location := [], Body := .ok [] } :=
          (Except.ok.inj hrt).symm
        rw [hresp]
        rfl)⟩⟩

/-! ## Malformed JSON in the object -/

/-- C1 at two objects in which a malformed unit stands between two valid
records. The value texts `{"textPayload":"a"}` and `{"textPayload":"b"}` are
valid records. On `{"textPayload":"a"}]{"textPayload":"b"}` the loop stops
at the bracket: the text is `a` alone and the record `b` is lost. On
`{"textPayload":"a"}x{"textPayload":"b"}` the loop never ends, whatever the
number of passes allowed, and nothing is uploaded. -/
theorem malformed_unit_loses_records (w : World) (e : GCSEvent) (fuel : Nat) :
    isTextRecord w (utf8 "\x7b\"textPayload\":\"a\"\x7d") = true ∧
    isTextRecord w (utf8 "\x7b\"textPayload\":\"b\"\x7d") = true ∧
    NotifyToDiscord
        (exampleWorld (utf8 "\x7b\"textPayload\":\"a\"\x7d]\x7b\"textPayload\":\"b\"\x7d") 204 []) 2
        exampleEvent
      = some { ret := none, posts := [(utf8 "log length: 1", utf8 "a\n")],
               calls := (postToDiscord
                 (exampleWorld (utf8 "\x7b\"textPayload\":\"a\"\x7d]\x7b\"textPayload\":\"b\"\x7d") 204 [])
                 (utf8 "log length: 1") (utf8 "a\n")).calls,
               sent := (postToDiscord
                 (exampleWorld (utf8 "\x7b\"textPayload\":\"a\"\x7d]\x7b\"textPayload\":\"b\"\x7d") 204 [])
                 (utf8 "log length: 1") (utf8 "a\n")).sent } ∧
    NotifyToDiscord
        { w with
          NewClient := none,
          NewReader := fun _ _ =>
            .ok (utf8 "\x7b\"textPayload\":\"a\"\x7d" ++ utf8 "x\x7b\"textPayload\":\"b\"\x7d") }
        fuel e = none := by
  refine ⟨rfl, rfl, ?_, ?_⟩
  · have hloop : decodeLoop
        (exampleWorld (utf8 "\x7b\"textPayload\":\"a\"\x7d]\x7b\"textPayload\":\"b\"\x7d") 204 []) 2
        { d := NewDecoder (utf8 "\x7b\"textPayload\":\"a\"\x7d]\x7b\"textPayload\":\"b\"\x7d"),
          text := [], logLines := 0 }
        = some { d := { buf := utf8 "]\x7b\"textPayload\":\"b\"\x7d", err := none },
                 text := utf8 "a\n", logLines := 1 } := by decide
    exact NotifyToDiscord_of_loop _ 2 exampleEvent _ _ rfl rfl hloop
  · have hloop : ∀ w' : World, decodeLoop w' fuel
        { d := { buf := utf8 "\x7b\"textPayload\":\"a\"\x7d" ++ utf8 "x\x7b\"textPayload\":\"b\"\x7d",
                 err := none },
          text := [], logLines := 0 } = none := fun w' =>
      decodeLoop_diverges_after_object w' (utf8 "\x7b\"textPayload\":\"a\"\x7d") [] 0x78
        (utf8 "\x7b\"textPayload\":\"b\"\x7d")
        (.syntaxErr { c := 0x78, context := "looking for beginning of value" })
        (by decide) rfl (by decide) (by decide) rfl fuel [] 0
    simp only [NotifyToDiscord, NewDecoder, hloop]

/-- C2 at two objects with a malformed line. The object of the three lines
`{"textPayload":"a"}`, `}`, `{"textPayload":"c"}` gets the status message
`log length: 1`, not the count 3 of its units. On the object of the two lines
`{"textPayload":"a"}` and `{"textPayload":` (cut short) the loop never ends,
whatever the number of passes allowed, so no status message is composed. -/
theorem malformed_unit_miscounts (w : World) (e : GCSEvent) (fuel : Nat) :
    NotifyToDiscord
        (exampleWorld (utf8 "\x7b\"textPayload\":\"a\"\x7d\n\x7d\n\x7b\"textPayload\":\"c\"\x7d\n") 204 []) 2
        exampleEvent
      = some { ret := none, posts := [(utf8 "log length: 1", utf8 "a\n")],
               calls := (postToDiscord
                 (exampleWorld (utf8 "\x7b\"textPayload\":\"a\"\x7d\n\x7d\n\x7b\"textPayload\":\"c\"\x7d\n")
                   204 [])
                 (utf8 "log length: 1") (utf8 "a\n")).calls,
               sent := (postToDiscord
                 (exampleWorld (utf8 "\x7b\"textPayload\":\"a\"\x7d\n\x7d\n\x7b\"textPayload\":\"c\"\x7d\n")
                   204 [])
                 (utf8 "log length: 1") (utf8 "a\n")).sent } ∧
    NotifyToDiscord
        { w with
          NewClient := none,
          NewReader := fun _ _ =>
            .ok (utf8 "\x7b\"textPayload\":\"a\"\x7d" ++ utf8 "\n\x7b\"textPayload\":\n") }
        fuel e = none := by
  refine ⟨?_, ?_⟩
  · have hloop : decodeLoop
        (exampleWorld (utf8 "\x7b\"textPayload\":\"a\"\x7d\n\x7d\n\x7b\"textPayload\":\"c\"\x7d\n") 204 []) 2
        { d := NewDecoder (utf8 "\x7b\"textPayload\":\"a\"\x7d\n\x7d\n\x7b\"textPayload\":\"c\"\x7d\n"),
          text := [], logLines := 0 }
        = some { d := { buf := utf8 "\x7d\n\x7b\"textPayload\":\"c\"\x7d\n", err := none },
                 text := utf8 "a\n", logLines := 1 } := by decide
    exact NotifyToDiscord_of_loop _ 2 exampleEvent _ _ rfl rfl hloop
  · have hloop : ∀ w' : World, decodeLoop w' fuel
        { d := { buf := utf8 "\x7b\"textPayload\":\"a\"\x7d" ++ utf8 "\n\x7b\"textPayload\":\n",
                 err := none },
          text := [], logLines := 0 } = none := fun w' =>
      decodeLoop_diverges_after_object w' (utf8 "\x7b\"textPayload\":\"a\"\x7d") (utf8 "\n") 0x7B
        (utf8 "\"textPayload\":\n") .unexpectedEOF
        (by decide) (by decide) (by decide) (by decide) rfl fuel [] 0
    simp only [NotifyToDiscord, NewDecoder, hloop]

/-- C10 at the object `not json`. The first `Decode` fails in the scanner
and stores the error. From then on a pass of the loop changes nothing but the
counter: `More` reports a value, `Decode` returns the stored error and consumes
no byte. So the loop never ends, whatever the number of passes allowed, the
counter is not bounded by the length of the input, and the upload is never
reached. -/
theorem malformed_input_never_ends (w : World) (e : GCSEvent) (fuel : Nat) (text : Bytes)
    (n : Int) :
    loopBody w { d := NewDecoder (utf8 "not json"), text := [], logLines := 0 }
      = { d := { buf := utf8 "not json",
                 err := some (.syntaxErr { c := 0x6F, context := "in literal null (expecting \x27u\x27)" }) },
          text := [], logLines := 1 } ∧
    Decoder.More
        { buf := utf8 "not json",
          err := some (.syntaxErr { c := 0x6F, context := "in literal null (expecting \x27u\x27)" }) }
      = ({ buf := utf8 "not json",
           err := some (.syntaxErr { c := 0x6F, context := "in literal null (expecting \x27u\x27)" }) },
         true) ∧
    loopBody w
        { d := { buf := utf8 "not json",
                 err := some (.syntaxErr { c := 0x6F, context := "in literal null (expecting \x27u\x27)" }) },
          text := text, logLines := n }
      = { d := { buf := utf8 "not json",
                 err := some (.syntaxErr { c := 0x6F, context := "in literal null (expecting \x27u\x27)" }) },
          text := text, logLines := wrapInt64 (n + 1) } ∧
    NotifyToDiscord
        { w with NewClient := none, NewReader := fun _ _ => .ok (utf8 "not json") } fuel e
      = none := by
  refine ⟨rfl, rfl, rfl, ?_⟩
  have hloop : ∀ w' : World, decodeLoop w' fuel
      { d := { buf := utf8 "not json", err := none }, text := [], logLines := 0 } = none :=
    fun w' =>
      decodeLoop_diverges w' [] 0x6E (utf8 "ot json")
        (.syntaxErr { c := 0x6F, context := "in literal null (expecting \x27u\x27)" })
        rfl (by decide) (by decide) rfl fuel [] 0
  simp only [NotifyToDiscord, NewDecoder, hloop]

/-! ## A value of the wrong type in the object -/

/-- A record whose field has the wrong type is skipped and counted: `Decode`
consumes the whole value before it reports the type error, so the loop goes on
with the next record. -/
theorem type_mismatch_is_skipped :
    NotifyToDiscord
        (exampleWorld (utf8 "\x7b\"textPayload\":\"a\"\x7d\x7b\"textPayload\":5\x7d\x7b\"textPayload\":\"b\"\x7d")
          204 []) 4 exampleEvent
      = some { ret := none, posts := [(utf8 "log length: 3", utf8 "a\nb\n")],
               calls := (postToDiscord
                 (exampleWorld
                   (utf8 "\x7b\"textPayload\":\"a\"\x7d\x7b\"textPayload\":5\x7d\x7b\"textPayload\":\"b\"\x7d")
                   204 [])
                 (utf8 "log length: 3") (utf8 "a\nb\n")).calls,
               sent := (postToDiscord
                 (exampleWorld
                   (utf8 "\x7b\"textPayload\":\"a\"\x7d\x7b\"textPayload\":5\x7d\x7b\"textPayload\":\"b\"\x7d")
                   204 [])
                 (utf8 "log length: 3") (utf8 "a\nb\n")).sent } := by
  have hloop : decodeLoop
      (exampleWorld (utf8 "\x7b\"textPayload\":\"a\"\x7d\x7b\"textPayload\":5\x7d\x7b\"textPayload\":\"b\"\x7d")
        204 []) 4
      { d := NewDecoder
          (utf8 "\x7b\"textPayload\":\"a\"\x7d\x7b\"textPayload\":5\x7d\x7b\"textPayload\":\"b\"\x7d"),
        text := [], logLines := 0 }
      = some { d := { buf := [], err := none }, text := utf8 "a\nb\n", logLines := 3 } := by
    decide
  exact NotifyToDiscord_of_loop _ 4 exampleEvent _ _ rfl rfl hloop

/-! ## Records with a plain text payload -/

theorem isPlainByte_facts {c : UInt8} (h : isPlainByte c = true) :
    (c == 0x22) = false ∧ (c == 0x5C) = false ∧ ¬ c < 0x20 ∧ c < 0x80 := by
  simp only [isPlainByte, Bool.and_eq_true, decide_eq_true_eq, bne_iff_ne, ne_eq] at h
  obtain ⟨⟨⟨h1, h2⟩, h3⟩, h4⟩ := h
  refine ⟨by simpa using h3, by simpa using h4, ?_, h2⟩
  simpa using h1

theorem closesAt_string_body (rest : Bytes) :
    ∀ (t : Bytes) (s : scanner), s.step = .stateInString → t.all isPlainByte = true →
      closesAt s (t ++ rest) = closesAt s rest
  | [], _, _, _ => rfl
  | c :: cs, s, hs, ht => by
    simp only [List.all_cons, Bool.and_eq_true] at ht
    obtain ⟨h1, h2, h3, _⟩ := isPlainByte_facts ht.1
    have hstep : s.doStep c = (s, .scanContinue) := by
      simp [scanner.doStep, hs, stateInString, h1, h2, h3]
    rw [List.cons_append, closesAt, hstep]
    exact closesAt_string_body rest cs s hs ht.2

theorem isObjectText_textRecord (t : Bytes) (ht : t.all isPlainByte = true) :
    isObjectText (textRecord t) = true := by
  have h1 : closesAt scanner.init (textRecord t)
      = closesAt inTextPayload (t ++ utf8 "\"\x7d") := rfl
  have h2 : (textRecord t).head? = some 0x7B := rfl
  have h3 := closesAt_string_body (utf8 "\"\x7d") t inTextPayload rfl ht
  have h4 : closesAt inTextPayload (utf8 "\"\x7d") = true := by decide
  simp only [isObjectText, h1, h2, h3, h4, beq_self_eq_true, Bool.and_self]

theorem splitString_plain (rest : Bytes) :
    ∀ t : Bytes, t.all isPlainByte = true → splitString (t ++ 0x22 :: rest) = some (t, rest)
  | [], _ => by
    rw [List.nil_append, splitString.eq_def]
    rfl
  | c :: cs, ht => by
    simp only [List.all_cons, Bool.and_eq_true] at ht
    obtain ⟨h1, h2, _, _⟩ := isPlainByte_facts ht.1
    rw [List.cons_append, splitString.eq_def]
    simp [h1, h2, splitString_plain rest cs ht.2]

theorem unquoteLoop_plain :
    ∀ (t : Bytes) (fuel : Nat), t.all isPlainByte = true → t.length < fuel →
      unquoteLoop fuel t = some t
  | [], fuel, _, hf => by
    obtain ⟨f, rfl⟩ : ∃ f, fuel = f + 1 := ⟨fuel - 1, by omega⟩
    rfl
  | c :: cs, fuel, ht, hf => by
    obtain ⟨f, rfl⟩ : ∃ f, fuel = f + 1 := ⟨fuel - 1, by omega⟩
    simp only [List.all_cons, Bool.and_eq_true] at ht
    obtain ⟨h1, h2, h3, h4⟩ := isPlainByte_facts ht.1
    have hlen : cs.length < f := by simp at hf; omega
    simp [unquoteLoop, h1, h2, h3, h4, unquoteLoop_plain cs f ht.2 hlen]

theorem unquoteBytes_plain (t : Bytes) (ht : t.all isPlainByte = true) :
    unquoteBytes t = some t :=
  unquoteLoop_plain t _ ht (Nat.lt_succ_self _)

theorem textRecord_eq (t : Bytes) :
    textRecord t
      = 0x7B :: 0x22 :: (utf8 "textPayload" ++ 0x22 :: 0x3A :: 0x22 :: (t ++ 0x22 :: [0x7D])) :=
  rfl

theorem parseValue_textRecord (t : Bytes) (ht : t.all isPlainByte = true) (f : Nat) :
    parseValue (f + 3) (textRecord t)
      = some (.object [(utf8 "textPayload", .string t)], []) := by
  have hkey : (utf8 "textPayload").all isPlainByte = true := by decide
  have hs1 := splitString_plain (0x3A :: 0x22 :: (t ++ 0x22 :: [0x7D])) (utf8 "textPayload") hkey
  have hs2 := splitString_plain [0x7D] t ht
  have hu1 := unquoteBytes_plain (utf8 "textPayload") hkey
  have hu2 := unquoteBytes_plain t ht
  rw [textRecord_eq]
  simp [parseValue, parseMembers, skipSpace, List.dropWhile, isSpace, hs1, hs2, hu1, hu2]

theorem unmarshal_textRecord (parseFloatOK : Bytes → Bool) (t : Bytes)
    (ht : t.all isPlainByte = true) :
    unmarshal parseFloatOK (textRecord t) Log.zero
      = ({ Log.zero with TextPayload := t }, none) := by
  have hlen : (textRecord t).length + 1 = (t.length + 16) + 3 := by
    have h11 : (utf8 "textPayload").length = 11 := by decide
    simp only [textRecord_eq, List.length_cons, List.length_append, List.length_nil, h11]
    omega
  have hfield : findField logFields (utf8 "textPayload") = some LogField.TextPayload := by
    decide
  simp only [unmarshal, hlen, parseValue_textRecord t ht, storeLog, storeLogMembers, hfield,
    storeString, saveError]

theorem isTextRecord_textRecord (w : World) (t : Bytes) (ht : t.all isPlainByte = true)
    (hne : t ≠ []) :
    isTextRecord w (textRecord t) = true ∧ textOf w (textRecord t) = t := by
  have hu := unmarshal_textRecord w.parseFloatOK t ht
  have hempty : t.isEmpty = false := by
    cases t with
    | nil => exact absurd rfl hne
    | cons c cs => rfl
  refine ⟨?_, ?_⟩
  · simp only [isTextRecord, textOf, hu, isObjectText_textRecord t ht, hempty]
    rfl
  · simp only [textOf, hu]

/-- For every list of plain texts `t_1 ... t_N`, none empty, the object made of
the records `{"textPayload":"t_i"}` with white space around them is decoded
in full and in order: the status message is the one for the count N and the
text is `t_1 \n ... t_N \n`. -/
theorem NotifyToDiscord_plain_text_records (w : World) (e : GCSEvent) (lead : Bytes)
    (recs : List (Bytes × Bytes)) (fuel : Nat)
    (hclient : w.NewClient = none)
    (hobj : w.NewReader e.Bucket e.Name = .ok (lead ++ unitsBytes (textRecords recs)))
    (hlead : lead.all isSpace = true)
    (hrecs : ∀ r ∈ recs, r.1.all isPlainByte = true ∧ r.1 ≠ [] ∧ r.2.all isSpace = true)
    (hlen : (recs.length : Int) < 2 ^ 63)
    (hfuel : recs.length < fuel) :
    NotifyToDiscord w fuel e
      = some { ret := none,
               posts := [(comment recs.length, (recs.map (fun r => r.1 ++ utf8 "\n")).flatten)],
               calls := (postToDiscord w (comment recs.length)
                          (recs.map (fun r => r.1 ++ utf8 "\n")).flatten).calls,
               sent := (postToDiscord w (comment recs.length)
                          (recs.map (fun r => r.1 ++ utf8 "\n")).flatten).sent } := by
  have hunits : ∀ p ∈ textRecords recs, isObjectText p.1 = true ∧ p.2.all isSpace = true := by
    intro p hp
    simp only [textRecords, List.mem_map] at hp
    obtain ⟨r, hr, rfl⟩ := hp
    exact ⟨isObjectText_textRecord r.1 (hrecs r hr).1, (hrecs r hr).2.2⟩
  have hfrag : (textRecords recs).map (fun p => unitFragments w p.1)
      = recs.map (fun r => r.1 ++ utf8 "\n") := by
    simp only [textRecords, List.map_map]
    refine List.map_congr_left (fun r hr => ?_)
    have h := isTextRecord_textRecord w r.1 (hrecs r hr).1 (hrecs r hr).2.1
    simp only [Function.comp, unitFragments_of_isTextRecord w _ h.1, h.2]
  have hcount : (textRecords recs).length = recs.length := by simp [textRecords]
  have hloop := decodeLoop_units w (textRecords recs) lead [] 0 fuel hlead hunits
    (by rw [hcount]; exact hfuel)
  rw [hfrag, hcount, countAfter_eq recs.length 0 (le_refl 0) (by simpa using hlen)] at hloop
  simp only [List.nil_append, zero_add] at hloop
  exact NotifyToDiscord_of_loop w fuel e _ _ hclient hobj hloop

end Notify
